import Mathlib

/-!
Shallow embedding of the Green-team rotation scheduling engine
(`generateGreenSchedule` and its helpers) from the repository's
`greenScheduleService` source file, together with proofs of the
specification claims about it.

Conventions of the embedding:
* JavaScript numbers used as counters/ids are `Nat`; the scores computed by
  the candidate scorer are `ℚ` (they mix integer penalties with a
  `Math.random() * 10` term).
* `Math.random()` is modelled by an explicit stream of rationals in `[0,1)`
  (`RandomStream`), consumed left to right exactly in the order the source
  calls `Math.random()` (shuffle first, then one draw per candidate per
  scoring pass).
* The mutable `history` record is modelled as a total function
  `String → List GreenStation` initialised to `[]`.  The source initialises
  keys only for roster members and throws a `TypeError` when a forced
  assignment names a person outside the roster; theorems about forced
  assignments therefore carry the hypothesis that every forced assignment
  names a roster member.
* The per-iteration state of the engine is threaded explicitly through a
  `St` record; in addition the embedding records a ghost `trace` of every
  automatic selection the scorer makes (rotation, station, pool, history
  snapshot, chosen candidate) so that claims about "every automatic fill
  step" can be stated.  The trace has no influence on the computation.
-/

/-- The `GreenStation` enum of the source (four real stations plus the two
pseudo-stations). -/
inductive GreenStation where
  | TICKET
  | GREETER
  | PLANETARIUM
  | MUSEUM
  | SIDE_TASK
  | OFF_SHIFT
deriving DecidableEq, Repr, Inhabited

/-- The string value of each `GreenStation` enum member in the source. -/
def stationName : GreenStation → String
  | .TICKET => "Ticket"
  | .GREETER => "Greeter"
  | .PLANETARIUM => "Planetarium"
  | .MUSEUM => "Museum"
  | .SIDE_TASK => "Side Task"
  | .OFF_SHIFT => "Off Shift"

/-- `SideTaskRule` of `types.ts`: pins a person to a side task for one
rotation.  The optional `note` field is never read by the engine and is
omitted. -/
structure SideTaskRule where
  id : String
  rotationId : Nat
  employeeId : String
deriving DecidableEq, Repr

/-- `ShiftException` of `types.ts`: the person's actual present window. -/
structure ShiftException where
  id : String
  employeeId : String
  startTime : String
  endTime : String
deriving DecidableEq, Repr

/-- `ForcedAssignment`: an operator pin of a person to a station in a
rotation. -/
structure ForcedAssignment where
  rotationId : Nat
  station : GreenStation
  employeeId : String
deriving DecidableEq, Repr

/-- Severity of a `GreenNotification`. -/
inductive NotifType where
  | info
  | warning
  | critical
deriving DecidableEq, Repr

/-- `GreenNotification` of `types.ts`. -/
structure GreenNotification where
  id : String
  type : NotifType
  message : String
  rotationId : Option Nat := none
deriving DecidableEq, Repr

/-- One entry of the hardcoded `ROTATIONS_META` calendar.  The source field
`end` is a Lean keyword and is rendered `stop`. -/
structure RotMeta where
  id : Nat
  start : String
  stop : String
deriving DecidableEq, Repr, Inhabited

/-- The hardcoded rotation calendar `ROTATIONS_META` of the source. -/
def ROTATIONS_META : List RotMeta :=
  [⟨1, "09:00", "10:30"⟩,
   ⟨2, "10:30", "12:00"⟩,
   ⟨3, "12:00", "14:00"⟩,
   ⟨4, "14:00", "15:30"⟩,
   ⟨5, "15:30", "17:00"⟩]

/-- The `split(':')` of `getMinutes`, over the character list of the
string. -/
def splitColon : List Char → List Char → List (List Char)
  | [], acc => [acc.reverse]
  | c :: cs, acc =>
      if c = ':' then acc.reverse :: splitColon cs []
      else splitColon cs (c :: acc)

/-- Decimal parse of a digit string, the `Number(...)` of a well-formed
`"HH"`/`"mm"` field. -/
def parseNatChars (cs : List Char) : Nat :=
  cs.foldl (fun acc c => acc * 10 + (c.toNat - 48)) 0

/-- `getMinutes` of the source: parse `"HH:mm"` into minutes from
midnight (`h * 60 + m` over `time.split(':').map(Number)`; malformed
strings are caller responsibility). -/
def getMinutes (time : String) : Nat :=
  let parts := splitColon time.data []
  parseNatChars (parts.headD []) * 60 + parseNatChars ((parts.drop 1).headD [])

/-- Decimal digit character, used by the decimal printer `natRepr`. -/
def decDigitChar (d : Nat) : Char := Char.ofNat (48 + d)

/-- Auxiliary decimal printer (first argument is fuel, always at least the
number of digits). -/
def natReprAux : Nat → Nat → List Char
  | 0, _ => []
  | _ + 1, 0 => []
  | fuel + 1, n + 1 =>
      natReprAux fuel ((n + 1) / 10) ++ [decDigitChar ((n + 1) % 10)]

/-- Decimal printing of a natural number, as JavaScript template literals
print a number. -/
def natRepr (n : Nat) : String :=
  if n = 0 then "0" else String.mk (natReprAux (n + 1) n)

/-- The roster `B1..Bn` that `generateGreenSchedule` builds from
`numEmployees`. -/
def mkEmployees (n : Nat) : List String :=
  (List.range n).map (fun i => "B" ++ natRepr (i + 1))

/-- A rational in `[0,1)`, the contract of one `Math.random()` draw. -/
def Unit01 : Type := {q : ℚ // 0 ≤ q ∧ q < 1}

/-- The explicit random stream: an infinite sequence of `Math.random()`
results and a cursor. -/
structure RandomStream where
  vals : Nat → Unit01
  pos : Nat

/-- Draw the next random value from the stream. -/
def RandomStream.next (s : RandomStream) : ℚ × RandomStream :=
  ((s.vals s.pos).val, ⟨s.vals, s.pos + 1⟩)

/-- The all-zeros random stream (used in concrete evaluations). -/
def rs0 : RandomStream :=
  ⟨fun _ => ⟨0, by norm_num⟩, 0⟩

/-- A constant one-half random stream (a second, different stream for
hyperproperty witnesses). -/
def rsHalf : RandomStream :=
  ⟨fun _ => ⟨1/2, by norm_num⟩, 0⟩

/-- Swap two positions of a list (the destructuring swap of the source's
Fisher-Yates loop). -/
def listSwap (l : List String) (i j : Nat) : List String :=
  let vi := l.getD i ""
  let vj := l.getD j ""
  (l.set i vj).set j vi

/-- The Fisher-Yates loop of `shuffle`, running index `i` downwards; the
source iterates `for (let i = length - 1; i > 0; i--)` with
`j = Math.floor(Math.random() * (i + 1))`. -/
def shuffleGo : Nat → List String → RandomStream → List String × RandomStream
  | 0, l, rs => (l, rs)
  | i + 1, l, rs =>
      let (r, rs1) := rs.next
      let j := (r * ((i : ℚ) + 2)).floor.toNat
      shuffleGo i (listSwap l (i + 1) j) rs1

/-- `shuffle` of the source. -/
def shuffle (l : List String) (rs : RandomStream) : List String × RandomStream :=
  match l.length with
  | 0 => (l, rs)
  | n + 1 => shuffleGo n l rs

/-- Penalty constant: "RULE 1: NO CONSECUTIVE REPEAT", `score += 5000000`. -/
def CONSECUTIVE_REPEAT_PENALTY : ℚ := 5000000

/-- Penalty constant: "RULE 2: GAP OF 2 PREFERENCE", `score += 200000`. -/
def SHORT_GAP_PENALTY : ℚ := 200000

/-- Penalty constant: "RULE 3: PLANETARIUM MAX ONCE", `score += 10000000`. -/
def SCARCE_DOUBLE_PENALTY : ℚ := 10000000

/-- Bonus magnitude: "HEURISTIC 1: ESCAPE MUSEUM", `score -= 1000000`. -/
def ESCAPE_BONUS : ℚ := 1000000

/-- Penalty constant: "HEURISTIC 2: SAVE PLANETARIUM VIRGINS",
`score += 2000`. -/
def CONSERVE_PENALTY : ℚ := 2000

/-- Penalty constant per prior occurrence: "Soft Rule: Variety",
`score += timesDone * 1000`. -/
def VARIETY_PENALTY : ℚ := 1000

/-- Scale of the random tie-break term, `score += Math.random() * 10`. -/
def RANDOM_SCALE : ℚ := 10

/-- The candidate score computed by `assignBestCandidates` for one
candidate with history `past` and random draw `r`; lower is better. -/
def scoreOf (station : GreenStation) (past : List GreenStation) (r : ℚ) : ℚ :=
  (if past.getLast? = some station then CONSECUTIVE_REPEAT_PENALTY else 0)
  + (if past.dropLast.getLast? = some station then SHORT_GAP_PENALTY else 0)
  + (if station = GreenStation.PLANETARIUM ∧ past.contains GreenStation.PLANETARIUM
       then SCARCE_DOUBLE_PENALTY else 0)
  + (if station ≠ GreenStation.MUSEUM ∧ past.getLast? = some GreenStation.MUSEUM
       then -ESCAPE_BONUS else 0)
  + (if station ≠ GreenStation.PLANETARIUM ∧ ¬past.contains GreenStation.PLANETARIUM
       then CONSERVE_PENALTY else 0)
  + (past.count station : ℚ) * VARIETY_PENALTY
  + r * RANDOM_SCALE

/-- Append one station to one person's history record. -/
def pushHist (h : String → List GreenStation) (empId : String) (st : GreenStation) :
    String → List GreenStation :=
  fun x => if x = empId then h x ++ [st] else h x

/-- The per-rotation `assignments` record: one bucket per station. -/
structure Assignments where
  ticket : List String
  greeter : List String
  planetarium : List String
  museum : List String
  sideTask : List String
  offShift : List String
deriving DecidableEq, Repr

/-- All six buckets empty. -/
def Assignments.empty : Assignments := ⟨[], [], [], [], [], []⟩

/-- Bucket lookup. -/
def Assignments.get (a : Assignments) : GreenStation → List String
  | .TICKET => a.ticket
  | .GREETER => a.greeter
  | .PLANETARIUM => a.planetarium
  | .MUSEUM => a.museum
  | .SIDE_TASK => a.sideTask
  | .OFF_SHIFT => a.offShift

/-- `assignments[station].push(empId)`. -/
def Assignments.push (a : Assignments) (st : GreenStation) (p : String) : Assignments :=
  match st with
  | .TICKET => { a with ticket := a.ticket ++ [p] }
  | .GREETER => { a with greeter := a.greeter ++ [p] }
  | .PLANETARIUM => { a with planetarium := a.planetarium ++ [p] }
  | .MUSEUM => { a with museum := a.museum ++ [p] }
  | .SIDE_TASK => { a with sideTask := a.sideTask ++ [p] }
  | .OFF_SHIFT => { a with offShift := a.offShift ++ [p] }

/-- `assignments[station] = assignments[station].filter(id => id !== p)`. -/
def Assignments.removeFrom (a : Assignments) (st : GreenStation) (p : String) : Assignments :=
  match st with
  | .TICKET => { a with ticket := a.ticket.filter (fun x => x != p) }
  | .GREETER => { a with greeter := a.greeter.filter (fun x => x != p) }
  | .PLANETARIUM => { a with planetarium := a.planetarium.filter (fun x => x != p) }
  | .MUSEUM => { a with museum := a.museum.filter (fun x => x != p) }
  | .SIDE_TASK => { a with sideTask := a.sideTask.filter (fun x => x != p) }
  | .OFF_SHIFT => { a with offShift := a.offShift.filter (fun x => x != p) }

/-- Total number of occurrences of a person across all six buckets. -/
def occCount (p : String) (a : Assignments) : Nat :=
  a.ticket.count p + a.greeter.count p + a.planetarium.count p
    + a.museum.count p + a.sideTask.count p + a.offShift.count p

/-- Ghost record of one automatic selection made by the scorer. -/
structure FillEvent where
  rotationId : Nat
  station : GreenStation
  pool : List String
  history : String → List GreenStation
  chosen : String

/-- The engine state threaded through the rotation loop: the per-rotation
`assignments` and `availableEmployees` pool, the cross-rotation `history`
and `notifications`, the random stream, and the ghost selection trace. -/
structure St where
  asg : Assignments
  pool : List String
  history : String → List GreenStation
  notifs : List GreenNotification
  rs : RandomStream
  trace : List FillEvent

/-- The inputs of `generateGreenSchedule`. -/
structure Inputs where
  numEmployees : Nat
  sideTasks : List SideTaskRule
  shiftExceptions : List ShiftException
  forcedAssignments : List ForcedAssignment

/-- One output rotation. -/
structure GreenRotation where
  id : Nat
  timeRange : String
  assignments : Assignments
deriving DecidableEq, Repr

instance : Inhabited GreenRotation := ⟨⟨0, "", Assignments.empty⟩⟩

/-- The output record of `generateGreenSchedule`. -/
structure GeneratedGreenSchedule where
  rotations : List GreenRotation
  notifications : List GreenNotification
deriving DecidableEq, Repr

/-- The presence test of the source: a person is present unless their
first-matching shift exception fails to overlap the rotation window. -/
def isPresent (shiftExceptions : List ShiftException) (m : RotMeta) (empId : String) : Bool :=
  match shiftExceptions.find? (fun e => e.employeeId == empId) with
  | none => true
  | some ex =>
      let shiftStartMins := getMinutes ex.startTime
      let shiftEndMins := getMinutes ex.endTime
      !(decide (shiftEndMins ≤ getMinutes m.start) || decide (shiftStartMins ≥ getMinutes m.stop))

/-- The info notification pushed when a person is placed on a side task. -/
def sideNotif (m : RotMeta) (empId : String) : GreenNotification :=
  ⟨"side-" ++ natRepr m.id ++ "-" ++ empId, .info,
   empId ++ " assigned to Side Task in Rotation " ++ natRepr m.id ++ ".", some m.id⟩

/-- Step 1 of a rotation for one employee: off-shift bucket, side-task
bucket (with history entry and info notification), or the available pool. -/
def categorizeOne (inp : Inputs) (m : RotMeta) (s : St) (empId : String) : St :=
  if isPresent inp.shiftExceptions m empId = false then
    { s with asg := s.asg.push .OFF_SHIFT empId }
  else
    match inp.sideTasks.find? (fun t => t.rotationId == m.id && t.employeeId == empId) with
    | some _ =>
        { s with
          asg := s.asg.push .SIDE_TASK empId,
          history := pushHist s.history empId .SIDE_TASK,
          notifs := s.notifs ++ [sideNotif m empId] }
    | none => { s with pool := s.pool ++ [empId] }

/-- The warning pushed when a pin repeats the person's previous station. -/
def forceRepeatNotif (m : RotMeta) (f : ForcedAssignment) : GreenNotification :=
  ⟨"warn-force-repeat-" ++ natRepr m.id ++ "-" ++ f.employeeId, .warning,
   "Manual Override: " ++ f.employeeId ++ " is repeating " ++ stationName f.station
     ++ " consecutively in Rotation " ++ natRepr m.id ++ ".", none⟩

/-- The warning pushed when a pin assigns Planetarium to a repeat visitor. -/
def forceAroraNotif (m : RotMeta) (f : ForcedAssignment) : GreenNotification :=
  ⟨"warn-force-arora-" ++ natRepr m.id ++ "-" ++ f.employeeId, .warning,
   "Manual Override: " ++ f.employeeId ++ " is assigned Planetarium more than once.", none⟩

def applyForce (m : RotMeta) (s : St) (f : ForcedAssignment) : St :=
  let past := s.history f.employeeId
  let lastStation := past.getLast?
  let s1 :=
    if lastStation = some f.station then
      { s with notifs := s.notifs ++ [forceRepeatNotif m f] }
    else s
  let s2 :=
    if f.station = GreenStation.PLANETARIUM ∧ past.contains GreenStation.PLANETARIUM then
      { s1 with notifs := s1.notifs ++ [forceAroraNotif m f] }
    else s1
  let s3 :=
    { s2 with
      asg := (s2.asg.removeFrom .OFF_SHIFT f.employeeId).removeFrom .SIDE_TASK f.employeeId,
      pool := s2.pool.erase f.employeeId }
  if (s3.asg.get f.station).contains f.employeeId then s3
  else
    { s3 with
      asg := s3.asg.push f.station f.employeeId,
      history := pushHist s3.history f.employeeId f.station }

/-- Score the whole pool, drawing one random value per candidate in pool
order (the source's `availableEmployees.map`). -/
def scorePool (station : GreenStation) (h : String → List GreenStation) :
    List String → RandomStream → List (String × ℚ) × RandomStream
  | [], rs => ([], rs)
  | p :: ps, rs =>
      let (r, rs1) := rs.next
      let sc := scoreOf station (h p) r
      let (rest, rs2) := scorePool station h ps rs1
      ((p, sc) :: rest, rs2)

/-- Fold that keeps the earliest strictly-smallest score: the head of the
source's stable ascending sort of the scored candidates. -/
def pickMinGo (best : String × ℚ) : List (String × ℚ) → String × ℚ
  | [] => best
  | c :: cs => pickMinGo (if c.2 < best.2 then c else best) cs

/-- `scoredCandidates.sort((a, b) => a.score - b.score)[0]` (the sort is
stable, so ties resolve to the earliest candidate in pool order). -/
def chooseBest (scored : List (String × ℚ)) : String × ℚ :=
  pickMinGo (scored.headD ("", 0)) (scored.drop 1)

/-- The critical shortage notification of the fill loop. -/
def missingNotif (m : RotMeta) (station : GreenStation) (targetCount i foundLen : Nat) :
    GreenNotification :=
  ⟨"missing-" ++ natRepr m.id ++ "-" ++ stationName station ++ "-" ++ natRepr i, .critical,
   "Not enough staff for " ++ stationName station ++ " in Rotation " ++ natRepr m.id
     ++ ". Needed " ++ natRepr targetCount ++ ", found " ++ natRepr foundLen ++ ".",
   some m.id⟩

/-- The warning pushed when the scorer is forced into a back-to-back repeat. -/
def warnRepeatNotif (m : RotMeta) (station : GreenStation) (best : String) :
    GreenNotification :=
  ⟨"warn-repeat-" ++ natRepr m.id ++ "-" ++ best, .warning,
   best ++ " is repeating " ++ stationName station ++ " back-to-back in Rotation "
     ++ natRepr m.id ++ " (No other options).", some m.id⟩

/-- The critical pushed when the scorer double-books Planetarium. -/
def warnLimitNotif (m : RotMeta) (best : String) : GreenNotification :=
  ⟨"warn-limit-arora-" ++ natRepr m.id ++ "-" ++ best, .critical,
   best ++ " is assigned Planetarium for the 2nd time (Logic failed).", some m.id⟩

/-- The body of the `for (let i = 0; i < countNeeded; i++)` loop of
`assignBestCandidates`; the first argument is the remaining iteration
count, the second the source's `i`.  An empty pool emits the shortage
notification (for non-Museum stations with a positive target) and stops
this station, as the source's early `return` does. -/
def assignLoop (m : RotMeta) (station : GreenStation) (targetCount : Nat) :
    Nat → Nat → St → St
  | 0, _, s => s
  | k + 1, i, s =>
      match s.pool with
      | [] =>
          if targetCount > 0 && station != GreenStation.MUSEUM then
            { s with notifs := s.notifs ++
                [missingNotif m station targetCount i (s.asg.get station).length] }
          else s
      | _ :: _ =>
          let (scored, rs1) := scorePool station s.history s.pool s.rs
          let best := (chooseBest scored).1
          let past := s.history best
          let lastStation := past.getLast?
          let s1 := { s with rs := rs1,
                             trace := s.trace ++
                               [({ rotationId := m.id, station := station, pool := s.pool,
                                   history := s.history, chosen := best } : FillEvent)] }
          let s2 :=
            if lastStation = some station ∧ station ≠ GreenStation.MUSEUM then
              { s1 with notifs := s1.notifs ++ [warnRepeatNotif m station best] }
            else s1
          let s3 :=
            if station = GreenStation.PLANETARIUM ∧ past.contains GreenStation.PLANETARIUM then
              { s2 with notifs := s2.notifs ++ [warnLimitNotif m best] }
            else s2
          let s4 :=
            { s3 with
              asg := s3.asg.push station best,
              history := pushHist s3.history best station,
              pool := s3.pool.filter (fun e => e != best) }
          assignLoop m station targetCount k (i + 1) s4

/-- `assignBestCandidates(station, targetCount)` of the source:
`countNeeded = max(0, targetCount - assignments[station].length)`
iterations of the fill loop. -/
def assignBestCandidates (m : RotMeta) (station : GreenStation) (targetCount : Nat)
    (s : St) : St :=
  assignLoop m station targetCount (targetCount - (s.asg.get station).length) 0 s

/-- Process one rotation: categorize the roster, apply the rotation's
forced assignments, shuffle the pool, fill stations in priority order
(Ticket 1, Greeter 1, Planetarium 1, Ticket 2, then the Museum dump), and
emit the rotation record. -/
def processRotation (inp : Inputs) (m : RotMeta) (s0 : St) : St × GreenRotation :=
  let s := { s0 with asg := Assignments.empty, pool := [] }
  let s1 := (mkEmployees inp.numEmployees).foldl (categorizeOne inp m) s
  let s2 := (inp.forcedAssignments.filter (fun f => f.rotationId == m.id)).foldl
              (applyForce m) s1
  let sh := shuffle s2.pool s2.rs
  let s3 := { s2 with pool := sh.1, rs := sh.2 }
  let s4 := assignBestCandidates m .TICKET 1 s3
  let s5 := assignBestCandidates m .GREETER 1 s4
  let s6 := assignBestCandidates m .PLANETARIUM 1 s5
  let s7 := assignBestCandidates m .TICKET 2 s6
  let s8 := assignBestCandidates m .MUSEUM ((s7.asg.get .MUSEUM).length + s7.pool.length) s7
  (s8, ⟨m.id, m.start ++ " - " ++ m.stop, s8.asg⟩)

/-- The rotation loop of the engine. -/
def runRotations (inp : Inputs) : List RotMeta → St → St × List GreenRotation
  | [], s => (s, [])
  | m :: ms, s =>
      let pr := processRotation inp m s
      let rest := runRotations inp ms pr.1
      (rest.1, pr.2 :: rest.2)

/-- The info notifications pushed for every shift exception before the
rotation loop. -/
def preNotifs (shiftExceptions : List ShiftException) : List GreenNotification :=
  shiftExceptions.map (fun ex =>
    ⟨"shift-" ++ ex.id, .info,
     ex.employeeId ++ " has a custom shift (" ++ ex.startTime ++ "-" ++ ex.endTime ++ ").",
     none⟩)

/-- The engine with its full final state exposed (history, notifications,
random stream, ghost trace) alongside the rotation list. -/
def generateGreenScheduleFull (numEmployees : Nat) (sideTasks : List SideTaskRule)
    (shiftExceptions : List ShiftException) (forcedAssignments : List ForcedAssignment)
    (rs : RandomStream) : St × List GreenRotation :=
  runRotations
    { numEmployees := numEmployees, sideTasks := sideTasks,
      shiftExceptions := shiftExceptions, forcedAssignments := forcedAssignments }
    ROTATIONS_META
    { asg := Assignments.empty, pool := [], history := fun _ => [],
      notifs := preNotifs shiftExceptions, rs := rs, trace := [] }

/-- `generateGreenSchedule` of the source. -/
def generateGreenSchedule (numEmployees : Nat) (sideTasks : List SideTaskRule)
    (shiftExceptions : List ShiftException) (forcedAssignments : List ForcedAssignment)
    (rs : RandomStream) : GeneratedGreenSchedule :=
  let out := generateGreenScheduleFull numEmployees sideTasks shiftExceptions
    forcedAssignments rs
  { rotations := out.2, notifications := out.1.notifs }

/-! ### Basic lemmas: the decimal printer and the roster -/

/-- Decimal valuation of a digit string, a left inverse of `natRepr`. -/
def decVal (l : List Char) : Nat :=
  l.foldl (fun a c => a * 10 + (c.toNat - 48)) 0

theorem decVal_snoc (xs : List Char) (c : Char) :
    decVal (xs ++ [c]) = decVal xs * 10 + (c.toNat - 48) := by
  simp [decVal, List.foldl_append]

theorem decDigitChar_toNat {d : Nat} (hd : d < 10) : (decDigitChar d).toNat = 48 + d := by
  interval_cases d <;> decide

theorem decVal_natReprAux : ∀ fuel n, n ≤ fuel → decVal (natReprAux fuel n) = n := by
  intro fuel
  induction fuel with
  | zero =>
      intro n hn
      interval_cases n
      simp [natReprAux, decVal]
  | succ fuel ih =>
      intro n hn
      match n with
      | 0 => simp [natReprAux, decVal]
      | n + 1 =>
          have hdiv : (n + 1) / 10 ≤ fuel := by
            have h1 : (n + 1) / 10 < n + 1 := Nat.div_lt_self (Nat.succ_pos n) (by omega)
            omega
          have hmod : (n + 1) % 10 < 10 := Nat.mod_lt _ (by omega)
          calc decVal (natReprAux (fuel + 1) (n + 1))
              = decVal (natReprAux fuel ((n + 1) / 10) ++ [decDigitChar ((n + 1) % 10)]) := rfl
            _ = decVal (natReprAux fuel ((n + 1) / 10)) * 10
                  + ((decDigitChar ((n + 1) % 10)).toNat - 48) := decVal_snoc _ _
            _ = ((n + 1) / 10) * 10 + ((n + 1) % 10) := by
                  rw [ih _ hdiv, decDigitChar_toNat hmod]
                  omega
            _ = n + 1 := by omega

theorem decVal_natRepr (n : Nat) : decVal (natRepr n).data = n := by
  by_cases h : n = 0
  · subst h
    decide
  · have : natRepr n = String.mk (natReprAux (n + 1) n) := by simp [natRepr, h]
    rw [this]
    exact decVal_natReprAux (n + 1) n (by omega)

theorem natRepr_injective : Function.Injective natRepr := by
  intro a b h
  have := decVal_natRepr a
  rw [h, decVal_natRepr] at this
  omega

theorem mkEmployees_nodup (n : Nat) : (mkEmployees n).Nodup := by
  refine List.Nodup.map ?_ (List.nodup_range n)
  intro a b h
  have hstr : ("B" ++ natRepr (a + 1)) = ("B" ++ natRepr (b + 1)) := h
  have hdata : ('B' :: (natRepr (a + 1)).data) = ('B' :: (natRepr (b + 1)).data) := by
    have h1 : ("B" ++ natRepr (a + 1)).data = ("B" ++ natRepr (b + 1)).data := by rw [hstr]
    simpa using h1
  have h2 : (natRepr (a + 1)).data = (natRepr (b + 1)).data := by
    injection hdata
  have h3 : natRepr (a + 1) = natRepr (b + 1) := by
    cases hra : natRepr (a + 1) with
    | mk la =>
        cases hrb : natRepr (b + 1) with
        | mk lb =>
            rw [hra, hrb] at h2
            simp at h2
            simp [h2]
  have := natRepr_injective h3
  omega

theorem mem_mkEmployees_B1 {n : Nat} (hn : 0 < n) : "B1" ∈ mkEmployees n := by
  have : (0 : Nat) ∈ List.range n := List.mem_range.mpr hn
  have h := List.mem_map_of_mem (fun i => "B" ++ natRepr (i + 1)) this
  simpa [mkEmployees] using h

/-! ### Bucket lemmas -/

theorem Assignments.get_empty (st : GreenStation) : Assignments.empty.get st = [] := by
  cases st <;> rfl

theorem Assignments.get_push_self (a : Assignments) (st : GreenStation) (p : String) :
    (a.push st p).get st = a.get st ++ [p] := by
  cases st <;> rfl

theorem Assignments.get_push_ne (a : Assignments) {st st' : GreenStation} (p : String)
    (h : st' ≠ st) : (a.push st p).get st' = a.get st' := by
  cases st <;> cases st' <;> first | rfl | exact absurd rfl h

theorem Assignments.get_removeFrom_self (a : Assignments) (st : GreenStation) (p : String) :
    (a.removeFrom st p).get st = (a.get st).filter (fun x => x != p) := by
  cases st <;> rfl

theorem Assignments.get_removeFrom_ne (a : Assignments) {st st' : GreenStation} (p : String)
    (h : st' ≠ st) : (a.removeFrom st p).get st' = a.get st' := by
  cases st <;> cases st' <;> first | rfl | exact absurd rfl h

theorem occCount_get (p : String) (a : Assignments) :
    occCount p a = (a.get .TICKET).count p + (a.get .GREETER).count p
      + (a.get .PLANETARIUM).count p + (a.get .MUSEUM).count p
      + (a.get .SIDE_TASK).count p + (a.get .OFF_SHIFT).count p := rfl

theorem mem_get_of_occCount_pos {p : String} {a : Assignments}
    (h : ∃ st, p ∈ a.get st) : 0 < occCount p a := by
  obtain ⟨st, hst⟩ := h
  have hpos := List.count_pos_iff.mpr hst
  unfold occCount
  cases st <;> simp only [Assignments.get] at hpos <;> omega

theorem occCount_push (a : Assignments) (st : GreenStation) (p q : String) :
    occCount q (a.push st p) = occCount q a + if q = p then 1 else 0 := by
  have hc : List.count q [p] = if q = p then 1 else 0 := by
    by_cases h : q = p <;> simp [h]
  cases st <;>
    simp only [occCount, Assignments.push, List.count_append, hc] <;> omega

theorem count_filter_ne_self (l : List String) (p : String) :
    (l.filter (fun x => x != p)).count p = 0 := by
  rw [List.count_eq_zero]
  intro hmem
  have := List.of_mem_filter hmem
  simp at this

theorem count_filter_ne_other (l : List String) (p q : String) (h : q ≠ p) :
    (l.filter (fun x => x != p)).count q = l.count q := by
  apply List.count_filter
  simp [h]

theorem mem_filter_ne (l : List String) (p q : String) :
    q ∈ l.filter (fun x => x != p) ↔ q ∈ l ∧ q ≠ p := by
  simp [List.mem_filter]

/-! ### Shuffle lemmas -/

theorem count_listSwap (l : List String) (i j : Nat) (hi : i < l.length)
    (hj : j < l.length) (x : String) : (listSwap l i j).count x = l.count x := by
  unfold listSwap
  have hvj : l.getD j "" = l[j] := List.getD_eq_getElem l "" hj
  have hvi : l.getD i "" = l[i] := List.getD_eq_getElem l "" hi
  rw [hvi, hvj]
  have hj2 : j < (l.set i l[j]).length := by simpa using hj
  rw [List.count_set _ _ _ _ hj2, List.count_set _ _ _ _ hi]
  have hmemi : (l[i] == x) = true → 0 < l.count x := by
    intro hbeq
    refine List.count_pos_iff.mpr ?_
    have hm := List.getElem_mem hi
    rwa [eq_of_beq hbeq] at hm
  have hmemj : (l[j] == x) = true → 0 < l.count x := by
    intro hbeq
    refine List.count_pos_iff.mpr ?_
    have hm := List.getElem_mem hj
    rwa [eq_of_beq hbeq] at hm
  by_cases hij : i = j
  · subst hij
    rw [List.getElem_set_self hj2]
    by_cases h1 : (l[i] == x) = true
    · have := hmemi h1
      simp only [h1, if_true]
      omega
    · simp [h1]
  · rw [List.getElem_set_ne hij]
    by_cases h1 : (l[i] == x) = true <;> by_cases h2 : (l[j] == x) = true
    · have := hmemi h1
      simp only [h1, h2, if_true]
      omega
    · have := hmemi h1
      simp only [h1, h2, if_true]
      simp only [Bool.false_eq_true, if_false]
      omega
    · have := hmemj h2
      simp only [h1, h2, if_true]
      simp only [Bool.false_eq_true, if_false]
      omega
    · simp [h1, h2]

theorem length_listSwap (l : List String) (i j : Nat) :
    (listSwap l i j).length = l.length := by
  simp [listSwap]

theorem shuffleGo_count : ∀ (i : Nat) (l : List String) (rs : RandomStream),
    i + 1 ≤ l.length → ∀ x, ((shuffleGo i l rs).1).count x = l.count x := by
  intro i
  induction i with
  | zero =>
      intro l rs _ x
      rfl
  | succ i ih =>
      intro l rs h x
      have hr := (rs.vals rs.pos).property
      have hqlt : (rs.vals rs.pos).val * ((i : ℚ) + 2) < (i : ℚ) + 2 := by
        have h2 : (0 : ℚ) < (i : ℚ) + 2 := by positivity
        calc (rs.vals rs.pos).val * ((i : ℚ) + 2) < 1 * ((i : ℚ) + 2) := by
              exact mul_lt_mul_of_pos_right hr.2 h2
          _ = (i : ℚ) + 2 := one_mul _
      have hfl : ((rs.vals rs.pos).val * ((i : ℚ) + 2)).floor ≤ (i : ℤ) + 1 := by
        by_contra hc
        push_neg at hc
        have hle : (i : ℤ) + 2 ≤ ((rs.vals rs.pos).val * ((i : ℚ) + 2)).floor := by omega
        have := Rat.le_floor.mp hle
        push_cast at this
        linarith
      have hjle : ((rs.vals rs.pos).val * ((i : ℚ) + 2)).floor.toNat ≤ i + 1 := by
        omega
      have hswap : ∀ y, (listSwap l (i + 1)
          (((rs.vals rs.pos).val * ((i : ℚ) + 2)).floor.toNat)).count y = l.count y := by
        intro y
        exact count_listSwap l (i + 1) _ (by omega) (by omega) y
      have hstep : shuffleGo (i + 1) l rs =
          shuffleGo i (listSwap l (i + 1)
            (((rs.vals rs.pos).val * ((i : ℚ) + 2)).floor.toNat)) ⟨rs.vals, rs.pos + 1⟩ := by
        simp [shuffleGo, RandomStream.next]
      rw [hstep]
      have hlen : i + 1 ≤ (listSwap l (i + 1)
          (((rs.vals rs.pos).val * ((i : ℚ) + 2)).floor.toNat)).length := by
        rw [length_listSwap]
        omega
      rw [ih _ _ hlen x, hswap x]

theorem shuffle_count (l : List String) (rs : RandomStream) (x : String) :
    ((shuffle l rs).1).count x = l.count x := by
  unfold shuffle
  match hl : l.length with
  | 0 => rfl
  | n + 1 =>
      exact shuffleGo_count n l rs (by omega) x

theorem shuffle_perm (l : List String) (rs : RandomStream) : ((shuffle l rs).1).Perm l :=
  List.perm_iff_count.mpr (shuffle_count l rs)

theorem mem_shuffle (l : List String) (rs : RandomStream) (x : String) :
    x ∈ (shuffle l rs).1 ↔ x ∈ l :=
  (shuffle_perm l rs).mem_iff

theorem nodup_shuffle (l : List String) (rs : RandomStream) (h : l.Nodup) :
    ((shuffle l rs).1).Nodup :=
  ((shuffle_perm l rs).nodup_iff).mpr h

/-! ### Scorer lemmas -/

theorem scorePool_fst (station : GreenStation) (h : String → List GreenStation) :
    ∀ (pool : List String) (rs : RandomStream),
      ((scorePool station h pool rs).1).map Prod.fst = pool := by
  intro pool
  induction pool with
  | nil => intro rs; rfl
  | cons p ps ih =>
      intro rs
      simp [scorePool, RandomStream.next, ih]

theorem scorePool_shape (station : GreenStation) (h : String → List GreenStation) :
    ∀ (pool : List String) (rs : RandomStream) (pr : String × ℚ),
      pr ∈ (scorePool station h pool rs).1 →
      ∃ r : ℚ, 0 ≤ r ∧ r < 1 ∧ pr.2 = scoreOf station (h pr.1) r := by
  intro pool
  induction pool with
  | nil =>
      intro rs pr hpr
      simp [scorePool] at hpr
  | cons p ps ih =>
      intro rs pr hpr
      simp only [scorePool, RandomStream.next] at hpr
      rcases List.mem_cons.mp hpr with heq | hmem
      · subst heq
        exact ⟨(rs.vals rs.pos).val, (rs.vals rs.pos).property.1,
          (rs.vals rs.pos).property.2, rfl⟩
      · exact ih _ pr hmem

theorem scorePool_exists (station : GreenStation) (h : String → List GreenStation) :
    ∀ (pool : List String) (rs : RandomStream) (y : String), y ∈ pool →
      ∃ sc : ℚ, (y, sc) ∈ (scorePool station h pool rs).1 ∧
        ∃ r : ℚ, 0 ≤ r ∧ r < 1 ∧ sc = scoreOf station (h y) r := by
  intro pool
  induction pool with
  | nil =>
      intro rs y hy
      simp at hy
  | cons p ps ih =>
      intro rs y hy
      rcases List.mem_cons.mp hy with heq | hmem
      · subst heq
        refine ⟨scoreOf station (h y) (rs.vals rs.pos).val, ?_, ?_⟩
        · simp [scorePool, RandomStream.next]
        · exact ⟨(rs.vals rs.pos).val, (rs.vals rs.pos).property.1,
            (rs.vals rs.pos).property.2, rfl⟩
      · obtain ⟨sc, hmem2, hr⟩ := ih ⟨rs.vals, rs.pos + 1⟩ y hmem
        refine ⟨sc, ?_, hr⟩
        simp only [scorePool, RandomStream.next]
        exact List.mem_cons_of_mem _ hmem2

theorem pickMinGo_mem (b : String × ℚ) (l : List (String × ℚ)) :
    pickMinGo b l = b ∨ pickMinGo b l ∈ l := by
  induction l generalizing b with
  | nil => left; rfl
  | cons c cs ih =>
      simp only [pickMinGo]
      rcases ih (if c.2 < b.2 then c else b) with h | h
      · rw [h]
        by_cases hc : c.2 < b.2
        · right
          simp [hc]
        · left
          simp [hc]
      · right
        exact List.mem_cons_of_mem _ h

theorem pickMinGo_le (b : String × ℚ) (l : List (String × ℚ)) :
    (pickMinGo b l).2 ≤ b.2 ∧ ∀ c ∈ l, (pickMinGo b l).2 ≤ c.2 := by
  induction l generalizing b with
  | nil => exact ⟨le_refl _, by simp⟩
  | cons c cs ih =>
      simp only [pickMinGo]
      by_cases hc : c.2 < b.2
      · simp only [hc, if_true]
        obtain ⟨ih1, ih2⟩ := ih c
        refine ⟨by linarith, ?_⟩
        intro d hd
        rcases List.mem_cons.mp hd with heq | hmem
        · subst heq
          exact ih1
        · exact ih2 d hmem
      · simp only [hc, if_false]
        obtain ⟨ih1, ih2⟩ := ih b
        refine ⟨ih1, ?_⟩
        intro d hd
        rcases List.mem_cons.mp hd with heq | hmem
        · subst heq
          have h2 := not_lt.mp hc
          linarith
        · exact ih2 d hmem

theorem chooseBest_mem {scored : List (String × ℚ)} (h : scored ≠ []) :
    chooseBest scored ∈ scored := by
  match scored with
  | [] => exact absurd rfl h
  | c :: cs =>
      unfold chooseBest
      simp only [List.headD_cons, List.drop_one, List.tail_cons]
      rcases pickMinGo_mem c cs with h1 | h1
      · rw [h1]; exact List.mem_cons_self _ _
      · exact List.mem_cons_of_mem _ h1

theorem chooseBest_le {scored : List (String × ℚ)} (h : scored ≠ []) :
    ∀ d ∈ scored, (chooseBest scored).2 ≤ d.2 := by
  match scored with
  | [] => exact absurd rfl h
  | c :: cs =>
      unfold chooseBest
      simp only [List.headD_cons, List.drop_one, List.tail_cons]
      intro d hd
      obtain ⟨h1, h2⟩ := pickMinGo_le c cs
      rcases List.mem_cons.mp hd with heq | hmem
      · subst heq
        exact h1
      · exact h2 d hmem

theorem ite_zero_nonneg (c : Prop) [Decidable c] (a : ℚ) (ha : 0 ≤ a) :
    0 ≤ if c then a else 0 := by
  split_ifs <;> linarith

theorem ite_zero_le (c : Prop) [Decidable c] (a : ℚ) (ha : 0 ≤ a) :
    (if c then a else 0) ≤ a := by
  split_ifs <;> linarith

theorem ite_neg_le_zero (c : Prop) [Decidable c] (a : ℚ) (ha : 0 ≤ a) :
    (if c then -a else 0) ≤ 0 := by
  split_ifs <;> linarith


/-- The scorer's key comparison: a candidate whose immediately preceding
history entry equals the station scores strictly worse than any candidate
whose preceding entry differs, as long as the latter has done the station
at most five times (true of every state the engine reaches). -/
theorem scoreOf_lt_of_repeat (st : GreenStation) (px py : List GreenStation)
    (hx : px.getLast? = some st) (hy : py.getLast? ≠ some st)
    (hcy : py.count st ≤ 5)
    {rx ry : ℚ} (hrx : 0 ≤ rx) (hry0 : 0 ≤ ry) (hry : ry < 1) :
    scoreOf st py ry < scoreOf st px rx := by
  have hmem : st ∈ px := List.mem_of_mem_getLast? hx
  have hx3 : (if st = GreenStation.PLANETARIUM ∧ px.contains GreenStation.PLANETARIUM
        then SCARCE_DOUBLE_PENALTY else 0)
      = (if st = GreenStation.PLANETARIUM then SCARCE_DOUBLE_PENALTY else 0) := by
    by_cases hP : st = GreenStation.PLANETARIUM
    · subst hP
      have hcont : px.contains GreenStation.PLANETARIUM = true :=
        List.elem_eq_true_of_mem hmem
      rw [if_pos ⟨rfl, hcont⟩, if_pos rfl]
    · rw [if_neg (fun hand => hP hand.1), if_neg hP]
  have hx4 : (if st ≠ GreenStation.MUSEUM ∧ px.getLast? = some GreenStation.MUSEUM
      then -ESCAPE_BONUS else 0) = 0 := by
    rw [if_neg]
    rintro ⟨hne, hlast⟩
    rw [hx] at hlast
    exact hne (by injection hlast)
  have hxlow : 5000000 + (if st = GreenStation.PLANETARIUM then (10000000 : ℚ) else 0)
      ≤ scoreOf st px rx := by
    unfold scoreOf
    rw [if_pos hx, hx3, hx4]
    have t2 : (0 : ℚ) ≤ if px.dropLast.getLast? = some st then SHORT_GAP_PENALTY else 0 :=
      ite_zero_nonneg _ _ (by norm_num [SHORT_GAP_PENALTY])
    have t5 : (0 : ℚ) ≤ if st ≠ GreenStation.PLANETARIUM
        ∧ ¬px.contains GreenStation.PLANETARIUM = true then CONSERVE_PENALTY else 0 :=
      ite_zero_nonneg _ _ (by norm_num [CONSERVE_PENALTY])
    have t6 : (0 : ℚ) ≤ (px.count st : ℚ) * VARIETY_PENALTY := by
      have h0 : (0 : ℚ) ≤ (px.count st : ℚ) := by positivity
      have h1 : (0 : ℚ) ≤ VARIETY_PENALTY := by norm_num [VARIETY_PENALTY]
      positivity
    have t7 : (0 : ℚ) ≤ rx * RANDOM_SCALE := by
      have h1 : (0 : ℚ) ≤ RANDOM_SCALE := by norm_num [RANDOM_SCALE]
      positivity
    have hc : CONSECUTIVE_REPEAT_PENALTY = (5000000 : ℚ) := rfl
    have hs : SCARCE_DOUBLE_PENALTY = (10000000 : ℚ) := rfl
    rw [hc, hs]
    linarith
  have hyhigh : scoreOf st py ry
      < 207010 + (if st = GreenStation.PLANETARIUM then (10000000 : ℚ) else 0) := by
    unfold scoreOf
    rw [if_neg hy]
    have hg : SHORT_GAP_PENALTY = (200000 : ℚ) := rfl
    have hv : CONSERVE_PENALTY = (2000 : ℚ) := rfl
    have hs : SCARCE_DOUBLE_PENALTY = (10000000 : ℚ) := rfl
    have hV : VARIETY_PENALTY = (1000 : ℚ) := rfl
    have hR : RANDOM_SCALE = (10 : ℚ) := rfl
    have hE : ESCAPE_BONUS = (1000000 : ℚ) := rfl
    rw [hg, hv, hs, hV, hR, hE]
    have t2 : (if py.dropLast.getLast? = some st then (200000 : ℚ) else 0)
        ≤ 200000 :=
      ite_zero_le _ _ (by norm_num)
    have t3 : (if st = GreenStation.PLANETARIUM ∧ py.contains GreenStation.PLANETARIUM
          then (10000000 : ℚ) else 0)
        ≤ (if st = GreenStation.PLANETARIUM then (10000000 : ℚ) else 0) := by
      by_cases hP : st = GreenStation.PLANETARIUM
      · subst hP
        rw [if_pos rfl]
        exact ite_zero_le _ _ (by norm_num)
      · rw [if_neg (fun hand => hP hand.1), if_neg hP]
    have t4 : (if st ≠ GreenStation.MUSEUM ∧ py.getLast? = some GreenStation.MUSEUM
          then -(1000000 : ℚ) else 0) ≤ 0 :=
      ite_neg_le_zero _ _ (by norm_num)
    have t5 : (if st ≠ GreenStation.PLANETARIUM
          ∧ ¬py.contains GreenStation.PLANETARIUM = true then (2000 : ℚ) else 0)
        ≤ 2000 :=
      ite_zero_le _ _ (by norm_num)
    have t6 : (py.count st : ℚ) * 1000 ≤ 5000 := by
      have hcq : (py.count st : ℚ) ≤ 5 := by exact_mod_cast hcy
      linarith
    have t7 : ry * 10 < 10 := by linarith
    linarith
  by_cases hP : st = GreenStation.PLANETARIUM
  · rw [if_pos hP] at hxlow hyhigh
    linarith
  · rw [if_neg hP] at hxlow hyhigh
    linarith

/-! ### Phase characterizations -/

/-- The four stations the automatic filler serves (everything except the
two pseudo-stations). -/
def realStation (st : GreenStation) : Prop :=
  st ≠ GreenStation.SIDE_TASK ∧ st ≠ GreenStation.OFF_SHIFT

instance (st : GreenStation) : Decidable (realStation st) := by
  unfold realStation
  infer_instance

/-- The availability resolver sends this person to the off-shift bucket. -/
def toOff (inp : Inputs) (m : RotMeta) (e : String) : Bool :=
  !(isPresent inp.shiftExceptions m e)

/-- The availability resolver sends this person to the side-task bucket. -/
def toSide (inp : Inputs) (m : RotMeta) (e : String) : Bool :=
  isPresent inp.shiftExceptions m e &&
    (inp.sideTasks.find? (fun t => t.rotationId == m.id && t.employeeId == e)).isSome

/-- The availability resolver sends this person to the available pool. -/
def toPool (inp : Inputs) (m : RotMeta) (e : String) : Bool :=
  isPresent inp.shiftExceptions m e &&
    (inp.sideTasks.find? (fun t => t.rotationId == m.id && t.employeeId == e)).isNone

/-- Full characterization of the availability-resolver fold. -/
theorem categorize_foldl (inp : Inputs) (m : RotMeta) :
    ∀ (es : List String) (s : St),
    es.foldl (categorizeOne inp m) s =
      { asg := { s.asg with
          offShift := s.asg.offShift ++ es.filter (toOff inp m),
          sideTask := s.asg.sideTask ++ es.filter (toSide inp m) },
        pool := s.pool ++ es.filter (toPool inp m),
        history := fun p => s.history p ++
          List.replicate ((es.filter (toSide inp m)).count p) GreenStation.SIDE_TASK,
        notifs := s.notifs ++ (es.filter (toSide inp m)).map (sideNotif m),
        rs := s.rs,
        trace := s.trace } := by
  intro es
  induction es with
  | nil =>
      intro s
      cases s with
      | mk asg pool history notifs rs trace =>
          cases asg
          simp
  | cons e es ih =>
      intro s
      rw [List.foldl_cons, ih]
      by_cases hOff : isPresent inp.shiftExceptions m e = false
      · have h1 : toOff inp m e = true := by simp [toOff, hOff]
        have h2 : toSide inp m e = false := by simp [toSide, hOff]
        have h3 : toPool inp m e = false := by simp [toPool, hOff]
        have e1 : List.filter (toOff inp m) (e :: es) = e :: List.filter (toOff inp m) es :=
          List.filter_cons_of_pos h1
        have e2 : List.filter (toSide inp m) (e :: es) = List.filter (toSide inp m) es :=
          List.filter_cons_of_neg (by simp [h2])
        have e3 : List.filter (toPool inp m) (e :: es) = List.filter (toPool inp m) es :=
          List.filter_cons_of_neg (by simp [h3])
        rw [e1, e2, e3]
        simp only [categorizeOne, hOff, if_pos rfl]
        cases s with
        | mk asg pool history notifs rs trace =>
            cases asg
            simp [Assignments.push, List.append_assoc]
      · have hPres : isPresent inp.shiftExceptions m e = true := by
          cases h : isPresent inp.shiftExceptions m e
          · exact absurd h hOff
          · rfl
        unfold categorizeOne
        rw [if_neg (by simp [hPres])]
        cases hfind : inp.sideTasks.find? (fun t => t.rotationId == m.id && t.employeeId == e) with
        | some t =>
            have h1 : toOff inp m e = false := by simp [toOff, hPres]
            have h2 : toSide inp m e = true := by simp [toSide, hPres, hfind]
            have h3 : toPool inp m e = false := by simp [toPool, hPres, hfind]
            have e1 : List.filter (toOff inp m) (e :: es) = List.filter (toOff inp m) es :=
              List.filter_cons_of_neg (by simp [h1])
            have e2 : List.filter (toSide inp m) (e :: es) = e :: List.filter (toSide inp m) es :=
              List.filter_cons_of_pos h2
            have e3 : List.filter (toPool inp m) (e :: es) = List.filter (toPool inp m) es :=
              List.filter_cons_of_neg (by simp [h3])
            rw [e1, e2, e3]
            cases s with
            | mk asg pool history notifs rs trace =>
                cases asg
                rw [St.mk.injEq]
                refine ⟨?_, ?_, ?_, ?_, ?_, ?_⟩
                · rw [Assignments.mk.injEq]
                  refine ⟨?_, ?_, ?_, ?_, ?_, ?_⟩ <;> simp [Assignments.push, List.append_assoc]
                · rfl
                · funext p
                  by_cases hp : p = e
                  · subst hp
                    simp [pushHist, List.count_cons, List.replicate_succ, List.append_assoc,
                      Assignments.push]
                  · simp [pushHist, hp, List.count_cons, Ne.symm hp, Assignments.push]
                · simp [List.append_assoc]
                · rfl
                · rfl
        | none =>
            have h1 : toOff inp m e = false := by simp [toOff, hPres]
            have h2 : toSide inp m e = false := by simp [toSide, hPres, hfind]
            have h3 : toPool inp m e = true := by simp [toPool, hPres, hfind]
            have e1 : List.filter (toOff inp m) (e :: es) = List.filter (toOff inp m) es :=
              List.filter_cons_of_neg (by simp [h1])
            have e2 : List.filter (toSide inp m) (e :: es) = List.filter (toSide inp m) es :=
              List.filter_cons_of_neg (by simp [h2])
            have e3 : List.filter (toPool inp m) (e :: es) = e :: List.filter (toPool inp m) es :=
              List.filter_cons_of_pos h3
            rw [e1, e2, e3]
            cases s with
            | mk asg pool history notifs rs trace =>
                cases asg
                simp [List.append_assoc]

/-- Normal form of one forced-assignment step: some notifications are
appended, the person is removed from the off-shift/side-task buckets and
the pool, and they are pushed into the pinned station (with a history
entry) unless already there. -/
theorem applyForce_eq (m : RotMeta) (s : St) (f : ForcedAssignment) :
    ∃ add : List GreenNotification,
      applyForce m s f =
        (if (((s.asg.removeFrom .OFF_SHIFT f.employeeId).removeFrom .SIDE_TASK
              f.employeeId).get f.station).contains f.employeeId then
          { s with
            asg := (s.asg.removeFrom .OFF_SHIFT f.employeeId).removeFrom .SIDE_TASK f.employeeId,
            pool := s.pool.erase f.employeeId,
            notifs := s.notifs ++ add }
        else
          { s with
            asg := ((s.asg.removeFrom .OFF_SHIFT f.employeeId).removeFrom .SIDE_TASK
                      f.employeeId).push f.station f.employeeId,
            pool := s.pool.erase f.employeeId,
            history := pushHist s.history f.employeeId f.station,
            notifs := s.notifs ++ add }) := by
  unfold applyForce
  dsimp only
  by_cases h1 : (s.history f.employeeId).getLast? = some f.station
  · by_cases h2 : f.station = GreenStation.PLANETARIUM ∧
        (s.history f.employeeId).contains GreenStation.PLANETARIUM
    · refine ⟨[forceRepeatNotif m f, forceAroraNotif m f], ?_⟩
      rw [if_pos h1, if_pos h2]
      split <;> simp [List.append_assoc]
    · refine ⟨[forceRepeatNotif m f], ?_⟩
      rw [if_pos h1, if_neg h2]
  · by_cases h2 : f.station = GreenStation.PLANETARIUM ∧
        (s.history f.employeeId).contains GreenStation.PLANETARIUM
    · refine ⟨[forceAroraNotif m f], ?_⟩
      rw [if_neg h1, if_pos h2]
    · refine ⟨[], ?_⟩
      rw [if_neg h1, if_neg h2]
      split <;> simp [List.append_assoc]

theorem removeFrom2_get (a : Assignments) (p : String) (st : GreenStation) :
    ((a.removeFrom .OFF_SHIFT p).removeFrom .SIDE_TASK p).get st =
      if st = GreenStation.OFF_SHIFT ∨ st = GreenStation.SIDE_TASK then
        (a.get st).filter (fun x => x != p)
      else a.get st := by
  cases st <;> simp [Assignments.removeFrom, Assignments.get]

theorem applyForce_pool (m : RotMeta) (s : St) (f : ForcedAssignment) :
    (applyForce m s f).pool = s.pool.erase f.employeeId := by
  obtain ⟨add, heq⟩ := applyForce_eq m s f
  rw [heq]
  split <;> rfl

theorem applyForce_rs (m : RotMeta) (s : St) (f : ForcedAssignment) :
    (applyForce m s f).rs = s.rs := by
  obtain ⟨add, heq⟩ := applyForce_eq m s f
  rw [heq]
  split <;> rfl

theorem applyForce_trace (m : RotMeta) (s : St) (f : ForcedAssignment) :
    (applyForce m s f).trace = s.trace := by
  obtain ⟨add, heq⟩ := applyForce_eq m s f
  rw [heq]
  split <;> rfl

theorem applyForce_notifs_mono (m : RotMeta) (s : St) (f : ForcedAssignment) :
    ∃ add, (applyForce m s f).notifs = s.notifs ++ add := by
  obtain ⟨add, heq⟩ := applyForce_eq m s f
  rw [heq]
  split <;> exact ⟨add, rfl⟩

theorem applyForce_hist_other (m : RotMeta) (s : St) (f : ForcedAssignment)
    {q : String} (hq : q ≠ f.employeeId) :
    (applyForce m s f).history q = s.history q := by
  obtain ⟨add, heq⟩ := applyForce_eq m s f
  rw [heq]
  split
  · rfl
  · simp [pushHist, hq]

theorem applyForce_hist_self (m : RotMeta) (s : St) (f : ForcedAssignment) :
    (applyForce m s f).history f.employeeId = s.history f.employeeId ∨
    (applyForce m s f).history f.employeeId = s.history f.employeeId ++ [f.station] := by
  obtain ⟨add, heq⟩ := applyForce_eq m s f
  rw [heq]
  split
  · left
    rfl
  · right
    simp [pushHist]

theorem applyForce_count_other (m : RotMeta) (s : St) (f : ForcedAssignment)
    {q : String} (hq : q ≠ f.employeeId) (st : GreenStation) :
    ((applyForce m s f).asg.get st).count q = (s.asg.get st).count q := by
  obtain ⟨add, heq⟩ := applyForce_eq m s f
  rw [heq]
  split
  · rw [removeFrom2_get]
    split
    · exact count_filter_ne_other _ _ _ hq
    · rfl
  · by_cases hst : st = f.station
    · subst hst
      rw [Assignments.get_push_self, List.count_append, removeFrom2_get]
      have hone : List.count q [f.employeeId] = 0 := by
        simp [List.count_singleton', hq]
      rw [hone]
      split
      · rw [count_filter_ne_other _ _ _ hq]
        omega
      · omega
    · rw [Assignments.get_push_ne _ _ hst, removeFrom2_get]
      split
      · exact count_filter_ne_other _ _ _ hq
      · rfl

theorem applyForce_mem_other (m : RotMeta) (s : St) (f : ForcedAssignment)
    {q : String} (hq : q ≠ f.employeeId) (st : GreenStation) :
    q ∈ (applyForce m s f).asg.get st ↔ q ∈ s.asg.get st := by
  rw [← List.count_pos_iff, ← List.count_pos_iff, applyForce_count_other m s f hq st]

theorem applyForce_mem_station (m : RotMeta) (s : St) (f : ForcedAssignment) :
    f.employeeId ∈ (applyForce m s f).asg.get f.station := by
  obtain ⟨add, heq⟩ := applyForce_eq m s f
  rw [heq]
  split
  · next hc =>
      exact List.mem_of_elem_eq_true hc
  · rw [Assignments.get_push_self]
    simp

theorem applyForce_get_real (m : RotMeta) (s : St) (f : ForcedAssignment)
    {st : GreenStation} (hst : realStation st) :
    (applyForce m s f).asg.get st = s.asg.get st ∨
    (st = f.station ∧
      (applyForce m s f).asg.get st = s.asg.get st ++ [f.employeeId]) := by
  obtain ⟨add, heq⟩ := applyForce_eq m s f
  have hpf : (if st = GreenStation.OFF_SHIFT ∨ st = GreenStation.SIDE_TASK then
      (s.asg.get st).filter (fun x => x != f.employeeId) else s.asg.get st) = s.asg.get st := by
    rw [if_neg]
    rintro (h | h)
    · exact hst.2 h
    · exact hst.1 h
  rw [heq]
  split
  · left
    rw [removeFrom2_get, hpf]
  · by_cases hc : st = f.station
    · right
      subst hc
      refine ⟨rfl, ?_⟩
      rw [Assignments.get_push_self, removeFrom2_get, hpf]
    · left
      rw [Assignments.get_push_ne _ _ hc, removeFrom2_get, hpf]

theorem count_eq_zero_of_real_fresh {s : St} {p : String}
    (hfresh : ∀ st, realStation st → p ∉ s.asg.get st) :
    (s.asg.get .TICKET).count p = 0 ∧ (s.asg.get .GREETER).count p = 0 ∧
    (s.asg.get .PLANETARIUM).count p = 0 ∧ (s.asg.get .MUSEUM).count p = 0 := by
  refine ⟨?_, ?_, ?_, ?_⟩ <;>
    exact List.count_eq_zero.mpr (hfresh _ (by constructor <;> intro h <;> exact absurd h (by simp)))

theorem applyForce_self_occ (m : RotMeta) (s : St) (f : ForcedAssignment)
    (hfresh : ∀ st, realStation st → f.employeeId ∉ s.asg.get st)
    (hocc : occCount f.employeeId s.asg + s.pool.count f.employeeId = 1) :
    occCount f.employeeId (applyForce m s f).asg
      + (applyForce m s f).pool.count f.employeeId = 1 := by
  obtain ⟨add, heq⟩ := applyForce_eq m s f
  set p := f.employeeId with hp
  obtain ⟨ht, hg, hpl, hmu⟩ := count_eq_zero_of_real_fresh hfresh
  have hcontains : ((((s.asg.removeFrom .OFF_SHIFT p).removeFrom .SIDE_TASK
      p).get f.station).contains p) = false := by
    rw [removeFrom2_get]
    split
    · rw [← Bool.not_eq_true]
      intro hc
      have hm := List.mem_of_elem_eq_true hc
      rw [mem_filter_ne] at hm
      exact hm.2 rfl
    · next hns =>
        rw [← Bool.not_eq_true]
        intro hc
        have hm := List.mem_of_elem_eq_true hc
        push_neg at hns
        exact hfresh f.station ⟨hns.2, hns.1⟩ hm
  rw [heq, if_neg (by rw [hcontains]; simp)]
  have ha3 : occCount p (((s.asg.removeFrom .OFF_SHIFT p).removeFrom .SIDE_TASK p)) = 0 := by
    rw [occCount_get]
    rw [removeFrom2_get, removeFrom2_get, removeFrom2_get, removeFrom2_get,
        removeFrom2_get, removeFrom2_get]
    simp only [reduceCtorEq, or_self, if_false, or_false, if_true, or_true,
      reduceIte]
    rw [count_filter_ne_self, count_filter_ne_self]
    simp [ht, hg, hpl, hmu]
  have hpush : occCount p ((((s.asg.removeFrom .OFF_SHIFT p).removeFrom .SIDE_TASK
      p)).push f.station p) = 1 := by
    rw [occCount_push, ha3]
    simp
  have hpe : (s.pool.erase p).count p = s.pool.count p - 1 := List.count_erase_self p s.pool
  have hple : s.pool.count p ≤ 1 := by omega
  simp only [hpush, hpe]
  omega

/-- Which notification marks a second Planetarium booking for person `p`. -/
def aroraFlagged (notifs : List GreenNotification) (p : String) : Prop :=
  ∃ nt ∈ notifs, (nt.type = NotifType.warning ∨ nt.type = NotifType.critical) ∧
    ∃ rid : Nat, nt.id = "warn-force-arora-" ++ natRepr rid ++ "-" ++ p ∨
                 nt.id = "warn-limit-arora-" ++ natRepr rid ++ "-" ++ p

theorem aroraFlagged_mono {notifs add : List GreenNotification} {p : String}
    (h : aroraFlagged notifs p) : aroraFlagged (notifs ++ add) p := by
  obtain ⟨nt, hmem, hrest⟩ := h
  exact ⟨nt, List.mem_append_left _ hmem, hrest⟩

/-- Every person's history holds at most one Planetarium entry unless a
warning/critical "arora" notification names them. -/
def aroraInv (s : St) : Prop :=
  ∀ p, (s.history p).count GreenStation.PLANETARIUM ≤ 1 ∨ aroraFlagged s.notifs p

theorem applyForce_notifs (m : RotMeta) (s : St) (f : ForcedAssignment) :
    (applyForce m s f).notifs =
      s.notifs
        ++ (if (s.history f.employeeId).getLast? = some f.station
            then [forceRepeatNotif m f] else [])
        ++ (if f.station = GreenStation.PLANETARIUM ∧
              (s.history f.employeeId).contains GreenStation.PLANETARIUM
            then [forceAroraNotif m f] else []) := by
  unfold applyForce
  dsimp only
  by_cases h1 : (s.history f.employeeId).getLast? = some f.station
  · by_cases h2 : f.station = GreenStation.PLANETARIUM ∧
        (s.history f.employeeId).contains GreenStation.PLANETARIUM
    · rw [if_pos h1, if_pos h2, if_pos h1, if_pos h2]
      split <;> simp [List.append_assoc]
    · rw [if_pos h1, if_neg h2, if_pos h1, if_neg h2]
      split <;> simp [List.append_assoc]
  · by_cases h2 : f.station = GreenStation.PLANETARIUM ∧
        (s.history f.employeeId).contains GreenStation.PLANETARIUM
    · rw [if_neg h1, if_pos h2, if_neg h1, if_pos h2]
      split <;> simp [List.append_assoc]
    · rw [if_neg h1, if_neg h2, if_neg h1, if_neg h2]
      split <;> simp [List.append_assoc]

theorem applyForce_arora_notif (m : RotMeta) (s : St) (f : ForcedAssignment)
    (hstation : f.station = GreenStation.PLANETARIUM)
    (hdone : (s.history f.employeeId).contains GreenStation.PLANETARIUM = true) :
    aroraFlagged (applyForce m s f).notifs f.employeeId := by
  have hmem : GreenStation.PLANETARIUM ∈ s.history f.employeeId :=
    List.mem_of_elem_eq_true hdone
  have hcond : f.station = GreenStation.PLANETARIUM ∧
      (s.history f.employeeId).contains GreenStation.PLANETARIUM = true := ⟨hstation, hdone⟩
  rw [applyForce_notifs, if_pos hcond]
  refine ⟨forceAroraNotif m f, ?_, Or.inl rfl, m.id, Or.inl rfl⟩
  exact List.mem_append_right _ (by simp)

theorem applyForce_aroraInv (m : RotMeta) (s : St) (f : ForcedAssignment)
    (h : aroraInv s) : aroraInv (applyForce m s f) := by
  intro q
  obtain ⟨add, heq⟩ := applyForce_notifs_mono m s f
  by_cases hq : q = f.employeeId
  · by_cases hP : f.station = GreenStation.PLANETARIUM ∧
        (s.history f.employeeId).contains GreenStation.PLANETARIUM = true
    · right
      rw [hq]
      exact applyForce_arora_notif m s f hP.1 hP.2
    · rcases applyForce_hist_self m s f with hh | hh
      · rw [hq, hh]
        rcases h f.employeeId with hc | hc
        · exact Or.inl hc
        · right
          rw [heq]
          exact aroraFlagged_mono hc
      · rw [hq, hh]
        by_cases hst : f.station = GreenStation.PLANETARIUM
        · left
          have hnd : ¬(s.history f.employeeId).contains GreenStation.PLANETARIUM = true := by
            intro hcont
            exact hP ⟨hst, hcont⟩
          have hzero : (s.history f.employeeId).count GreenStation.PLANETARIUM = 0 := by
            rw [List.count_eq_zero]
            intro hmem
            exact hnd (List.elem_eq_true_of_mem hmem)
          rw [List.count_append, hzero, hst]
          simp
        · rcases h f.employeeId with hc | hc
          · left
            rw [List.count_append]
            have hone : List.count GreenStation.PLANETARIUM [f.station] = 0 := by
              rw [List.count_singleton', if_neg]
              intro hcc
              exact hst hcc
            omega
          · right
            rw [heq]
            exact aroraFlagged_mono hc
  · rw [applyForce_hist_other m s f hq]
    rcases h q with hc | hc
    · exact Or.inl hc
    · right
      rw [heq]
      exact aroraFlagged_mono hc

/-- No member of the available pool already occupies a real station. -/
def poolFreshOK (s : St) : Prop :=
  ∀ q ∈ s.pool, ∀ st, realStation st → q ∉ s.asg.get st

/-- Relative to the history at the start of a rotation, each person has
earned at most one new entry of each real station, and only when they sit
in that station's bucket. -/
def histCountOK (h0 : String → List GreenStation) (s : St) : Prop :=
  ∀ p st, realStation st →
    (s.history p).count st ≤ (h0 p).count st + (if p ∈ s.asg.get st then 1 else 0)

theorem applyForce_fresh (m : RotMeta) (s : St) (f : ForcedAssignment)
    (hnd : s.pool.Nodup) (h : poolFreshOK s) : poolFreshOK (applyForce m s f) := by
  intro q hq st hst
  rw [applyForce_pool] at hq
  have hqs : q ∈ s.pool := List.mem_of_mem_erase hq
  rcases applyForce_get_real m s f hst with hget | ⟨hstEq, hget⟩
  · rw [hget]
    exact h q hqs st hst
  · rw [hget]
    intro hmem
    rcases List.mem_append.mp hmem with hmem | hmem
    · exact h q hqs st hst hmem
    · have hqf : q = f.employeeId := by simpa using hmem
      subst hqf
      exact (List.Nodup.not_mem_erase hnd) hq

theorem applyForce_histCountOK (m : RotMeta) (s : St) (f : ForcedAssignment)
    (h0 : String → List GreenStation) (h : histCountOK h0 s) :
    histCountOK h0 (applyForce m s f) := by
  intro q st hst
  obtain ⟨add, heq⟩ := applyForce_eq m s f
  have hpf : (if st = GreenStation.OFF_SHIFT ∨ st = GreenStation.SIDE_TASK then
      List.filter (fun x => x != f.employeeId) (s.asg.get st) else s.asg.get st)
      = s.asg.get st := by
    rw [if_neg]
    rintro (hh | hh)
    · exact hst.2 hh
    · exact hst.1 hh
  have hget : ((s.asg.removeFrom .OFF_SHIFT f.employeeId).removeFrom .SIDE_TASK
      f.employeeId).get st = s.asg.get st := by
    rw [removeFrom2_get, hpf]
  by_cases hc : (((s.asg.removeFrom .OFF_SHIFT f.employeeId).removeFrom .SIDE_TASK
      f.employeeId).get f.station).contains f.employeeId = true
  · rw [heq, if_pos hc]
    dsimp only
    rw [hget]
    exact h q st hst
  · rw [heq, if_neg hc]
    dsimp only
    by_cases hq : q = f.employeeId
    · subst hq
      by_cases hsf : st = f.station
      · have hnotin : f.employeeId ∉ s.asg.get f.station := by
          intro hmem
          apply hc
          rw [removeFrom2_get]
          rw [hsf] at hpf
          rw [hpf]
          exact List.elem_eq_true_of_mem hmem
        have hbound := h f.employeeId st hst
        rw [hsf, if_neg hnotin] at hbound
        have hmem' : f.employeeId ∈ (((s.asg.removeFrom .OFF_SHIFT
            f.employeeId).removeFrom .SIDE_TASK
            f.employeeId).push f.station f.employeeId).get f.station := by
          rw [Assignments.get_push_self]
          simp
        rw [hsf, if_pos hmem']
        have hcount : (pushHist s.history f.employeeId f.station f.employeeId).count f.station
            = (s.history f.employeeId).count f.station + 1 := by
          simp [pushHist]
        rw [hcount]
        omega
      · have hcount : (pushHist s.history f.employeeId f.station f.employeeId).count st
            = (s.history f.employeeId).count st := by
          unfold pushHist
          rw [if_pos rfl, List.count_append]
          have hz : List.count st [f.station] = 0 := by
            rw [List.count_eq_zero]
            intro hmem
            exact hsf (List.mem_singleton.mp hmem)
          omega
        rw [hcount]
        have hget2 : (((s.asg.removeFrom .OFF_SHIFT f.employeeId).removeFrom .SIDE_TASK
            f.employeeId).push f.station f.employeeId).get st = s.asg.get st := by
          rw [Assignments.get_push_ne _ _ hsf, removeFrom2_get, hpf]
        rw [hget2]
        exact h f.employeeId st hst
    · have hhist : pushHist s.history f.employeeId f.station q = s.history q := by
        simp [pushHist, hq]
      rw [hhist]
      by_cases hsf : st = f.station
      · have hbound := h q st hst
        have hget2 : (((s.asg.removeFrom .OFF_SHIFT f.employeeId).removeFrom .SIDE_TASK
            f.employeeId).push f.station f.employeeId).get st
            = s.asg.get st ++ [f.employeeId] := by
          rw [hsf, Assignments.get_push_self]
          rw [hsf] at hget
          rw [hget]
        rw [hget2]
        by_cases hmem : q ∈ s.asg.get st
        · rw [if_pos hmem] at hbound
          rw [if_pos (List.mem_append_left _ hmem)]
          exact hbound
        · rw [if_neg hmem] at hbound
          split <;> omega
      · have hget2 : (((s.asg.removeFrom .OFF_SHIFT f.employeeId).removeFrom .SIDE_TASK
            f.employeeId).push f.station f.employeeId).get st = s.asg.get st := by
          rw [Assignments.get_push_ne _ _ hsf, removeFrom2_get, hpf]
        rw [hget2]
        exact h q st hst

theorem applyForce_mem_real_mono (m : RotMeta) (s : St) (f : ForcedAssignment)
    {q : String} {st : GreenStation} (hst : realStation st)
    (hmem : q ∈ s.asg.get st) : q ∈ (applyForce m s f).asg.get st := by
  rcases applyForce_get_real m s f hst with hget | ⟨_, hget⟩
  · rw [hget]
    exact hmem
  · rw [hget]
    exact List.mem_append_left _ hmem

theorem applyForce_asg_pool_congr (m : RotMeta) (s t : St) (f : ForcedAssignment)
    (hasg : s.asg = t.asg) (hpool : s.pool = t.pool) :
    (applyForce m s f).asg = (applyForce m t f).asg ∧
    (applyForce m s f).pool = (applyForce m t f).pool := by
  obtain ⟨adds, heqs⟩ := applyForce_eq m s f
  obtain ⟨addt, heqt⟩ := applyForce_eq m t f
  rw [heqs, heqt, hasg, hpool]
  constructor
  · split <;> rfl
  · split <;> rfl

theorem forceFold_rs (m : RotMeta) : ∀ (fs : List ForcedAssignment) (s : St),
    (fs.foldl (applyForce m) s).rs = s.rs := by
  intro fs
  induction fs with
  | nil => intro s; rfl
  | cons f fs ih =>
      intro s
      rw [List.foldl_cons, ih, applyForce_rs]

theorem forceFold_trace (m : RotMeta) : ∀ (fs : List ForcedAssignment) (s : St),
    (fs.foldl (applyForce m) s).trace = s.trace := by
  intro fs
  induction fs with
  | nil => intro s; rfl
  | cons f fs ih =>
      intro s
      rw [List.foldl_cons, ih, applyForce_trace]

theorem forceFold_notifs_mono (m : RotMeta) : ∀ (fs : List ForcedAssignment) (s : St),
    ∃ add, (fs.foldl (applyForce m) s).notifs = s.notifs ++ add := by
  intro fs
  induction fs with
  | nil => intro s; exact ⟨[], by simp⟩
  | cons f fs ih =>
      intro s
      obtain ⟨a1, h1⟩ := applyForce_notifs_mono m s f
      obtain ⟨a2, h2⟩ := ih (applyForce m s f)
      exact ⟨a1 ++ a2, by rw [List.foldl_cons, h2, h1, List.append_assoc]⟩

theorem forceFold_aroraInv (m : RotMeta) : ∀ (fs : List ForcedAssignment) (s : St),
    aroraInv s → aroraInv (fs.foldl (applyForce m) s) := by
  intro fs
  induction fs with
  | nil => intro s h; exact h
  | cons f fs ih =>
      intro s h
      exact ih _ (applyForce_aroraInv m s f h)

theorem forceFold_pool (m : RotMeta) : ∀ (fs : List ForcedAssignment) (s : St),
    s.pool.Nodup →
    ((fs.foldl (applyForce m) s).pool.Nodup ∧
     ∀ q ∈ (fs.foldl (applyForce m) s).pool, q ∈ s.pool ∧ ∀ f ∈ fs, q ≠ f.employeeId) := by
  intro fs
  induction fs with
  | nil =>
      intro s hnd
      exact ⟨hnd, fun q hq => ⟨hq, by simp⟩⟩
  | cons f fs ih =>
      intro s hnd
      rw [List.foldl_cons]
      have hnd1 : (applyForce m s f).pool.Nodup := by
        rw [applyForce_pool]
        exact List.Nodup.erase _ hnd
      obtain ⟨hnd2, hsub⟩ := ih (applyForce m s f) hnd1
      refine ⟨hnd2, fun q hq => ?_⟩
      obtain ⟨hq1, hq2⟩ := hsub q hq
      rw [applyForce_pool] at hq1
      have hqs : q ∈ s.pool := List.mem_of_mem_erase hq1
      refine ⟨hqs, fun g hg => ?_⟩
      rcases List.mem_cons.mp hg with heq | hmem
      · subst heq
        intro hqf
        rw [hqf] at hq1
        exact (List.Nodup.not_mem_erase hnd) hq1
      · exact hq2 g hmem

theorem forceFold_untouched (m : RotMeta) : ∀ (fs : List ForcedAssignment) (s : St)
    (p : String), (∀ f ∈ fs, f.employeeId ≠ p) →
    ((fs.foldl (applyForce m) s).history p = s.history p ∧
     (fs.foldl (applyForce m) s).pool.count p = s.pool.count p ∧
     ∀ st, ((fs.foldl (applyForce m) s).asg.get st).count p = (s.asg.get st).count p) := by
  intro fs
  induction fs with
  | nil =>
      intro s p _
      exact ⟨rfl, rfl, fun st => rfl⟩
  | cons f fs ih =>
      intro s p hnames
      rw [List.foldl_cons]
      have hf : f.employeeId ≠ p := hnames f (List.mem_cons_self f fs)
      have hp : p ≠ f.employeeId := fun h => hf h.symm
      obtain ⟨ih1, ih2, ih3⟩ := ih (applyForce m s f) p
        (fun g hg => hnames g (List.mem_cons_of_mem f hg))
      refine ⟨?_, ?_, ?_⟩
      · rw [ih1, applyForce_hist_other m s f hp]
      · rw [ih2, applyForce_pool, List.count_erase_of_ne hp]
      · intro st
        rw [ih3 st, applyForce_count_other m s f hp st]

theorem forceFold_occ (m : RotMeta) : ∀ (fs : List ForcedAssignment) (s : St)
    (p : String),
    List.Pairwise (fun f g => f.employeeId ≠ g.employeeId) fs →
    (∀ st, realStation st → ∀ f ∈ fs, f.employeeId ∉ s.asg.get st) →
    occCount p s.asg + s.pool.count p = 1 →
    occCount p (fs.foldl (applyForce m) s).asg
      + (fs.foldl (applyForce m) s).pool.count p = 1 := by
  intro fs
  induction fs with
  | nil =>
      intro s p _ _ h
      exact h
  | cons f fs ih =>
      intro s p hpw hfresh hocc
      rw [List.foldl_cons]
      have hfreshf : ∀ st, realStation st → f.employeeId ∉ s.asg.get st :=
        fun st hst => hfresh st hst f (List.mem_cons_self f fs)
      have hfresh' : ∀ st, realStation st → ∀ g ∈ fs,
          g.employeeId ∉ (applyForce m s f).asg.get st := by
        intro st hst g hg hmem
        rcases applyForce_get_real m s f hst with hget | ⟨_, hget⟩
        · rw [hget] at hmem
          exact hfresh st hst g (List.mem_cons_of_mem f hg) hmem
        · rw [hget] at hmem
          rcases List.mem_append.mp hmem with hmem | hmem
          · exact hfresh st hst g (List.mem_cons_of_mem f hg) hmem
          · have : g.employeeId = f.employeeId := by simpa using hmem
            exact (List.rel_of_pairwise_cons hpw hg) this.symm
      have hocc' : occCount p (applyForce m s f).asg
          + (applyForce m s f).pool.count p = 1 := by
        by_cases hp : p = f.employeeId
        · subst hp
          exact applyForce_self_occ m s f (fun st hst => hfreshf st hst) hocc
        · have hpne : p ≠ f.employeeId := hp
          have hcounts : ∀ st, ((applyForce m s f).asg.get st).count p
              = (s.asg.get st).count p := fun st => applyForce_count_other m s f hpne st
          have hocc2 : occCount p (applyForce m s f).asg = occCount p s.asg := by
            rw [occCount_get, occCount_get, hcounts, hcounts, hcounts, hcounts,
              hcounts, hcounts]
          rw [hocc2, applyForce_pool, List.count_erase_of_ne hpne]
          exact hocc
      exact ih (applyForce m s f) p (List.Pairwise.of_cons hpw) hfresh' hocc'

theorem forceFold_mem_real (m : RotMeta) : ∀ (fs : List ForcedAssignment) (s : St)
    (f : ForcedAssignment), f ∈ fs → realStation f.station →
    f.employeeId ∈ (fs.foldl (applyForce m) s).asg.get f.station := by
  intro fs
  induction fs with
  | nil =>
      intro s f hf
      exact absurd hf (by simp)
  | cons g fs ih =>
      intro s f hf hst
      rw [List.foldl_cons]
      rcases List.mem_cons.mp hf with heq | hmem
      · subst heq
        have hmem0 := applyForce_mem_station m s f
        have hmemfold : ∀ (fs2 : List ForcedAssignment) (t : St),
            f.employeeId ∈ t.asg.get f.station →
            f.employeeId ∈ (fs2.foldl (applyForce m) t).asg.get f.station := by
          intro fs2
          induction fs2 with
          | nil => intro t h; exact h
          | cons g2 fs2 ih2 =>
              intro t h
              rw [List.foldl_cons]
              exact ih2 _ (applyForce_mem_real_mono m t g2 hst h)
        exact hmemfold fs _ hmem0
      · exact ih _ f hmem hst

theorem forceFold_invariants (m : RotMeta) : ∀ (fs : List ForcedAssignment) (s : St)
    (h0 : String → List GreenStation),
    s.pool.Nodup → poolFreshOK s → histCountOK h0 s →
    ((fs.foldl (applyForce m) s).pool.Nodup ∧
     poolFreshOK (fs.foldl (applyForce m) s) ∧
     histCountOK h0 (fs.foldl (applyForce m) s)) := by
  intro fs
  induction fs with
  | nil =>
      intro s h0 h1 h2 h3
      exact ⟨h1, h2, h3⟩
  | cons f fs ih =>
      intro s h0 h1 h2 h3
      rw [List.foldl_cons]
      refine ih _ h0 ?_ ?_ ?_
      · rw [applyForce_pool]
        exact List.Nodup.erase _ h1
      · exact applyForce_fresh m s f h1 h2
      · exact applyForce_histCountOK m s f h0 h3

theorem forceFold_asg_pool_congr (m : RotMeta) : ∀ (fs : List ForcedAssignment)
    (s t : St), s.asg = t.asg → s.pool = t.pool →
    ((fs.foldl (applyForce m) s).asg = (fs.foldl (applyForce m) t).asg ∧
     (fs.foldl (applyForce m) s).pool = (fs.foldl (applyForce m) t).pool) := by
  intro fs
  induction fs with
  | nil =>
      intro s t h1 h2
      exact ⟨h1, h2⟩
  | cons f fs ih =>
      intro s t h1 h2
      rw [List.foldl_cons, List.foldl_cons]
      obtain ⟨h1', h2'⟩ := applyForce_asg_pool_congr m s t f h1 h2
      exact ih _ _ h1' h2'

/-- The candidate the scorer picks from the current pool. -/
def chosenOf (station : GreenStation) (s : St) : String :=
  (chooseBest (scorePool station s.history s.pool s.rs).1).1

/-- The state after one successful fill iteration that chose a candidate. -/
def stepState (m : RotMeta) (station : GreenStation) (add : List GreenNotification)
    (s : St) : St :=
  { asg := s.asg.push station (chosenOf station s),
    pool := s.pool.filter (fun e => e != chosenOf station s),
    history := pushHist s.history (chosenOf station s) station,
    notifs := s.notifs ++ add,
    rs := (scorePool station s.history s.pool s.rs).2,
    trace := s.trace ++
      [({ rotationId := m.id, station := station, pool := s.pool,
          history := s.history, chosen := chosenOf station s } : FillEvent)] }

theorem assignLoop_zero (m : RotMeta) (station : GreenStation) (target i : Nat) (s : St) :
    assignLoop m station target 0 i s = s := rfl

theorem assignLoop_empty (m : RotMeta) (station : GreenStation) (target k i : Nat)
    (s : St) (hpool : s.pool = []) :
    ∃ add, assignLoop m station target (k + 1) i s = { s with notifs := s.notifs ++ add } := by
  obtain ⟨asg, pool, history, notifs, rs, trace⟩ := s
  simp only at hpool
  subst hpool
  unfold assignLoop
  dsimp only
  split
  · exact ⟨_, rfl⟩
  · exact ⟨[], by simp⟩

theorem assignLoop_step (m : RotMeta) (station : GreenStation) (target k i : Nat)
    (s : St) (c : String) (cs : List String) (hpool : s.pool = c :: cs) :
    ∃ add : List GreenNotification,
      (assignLoop m station target (k + 1) i s =
        assignLoop m station target k (i + 1) (stepState m station add s))
      ∧ (station = GreenStation.PLANETARIUM ∧
          (s.history (chosenOf station s)).contains GreenStation.PLANETARIUM = true →
          warnLimitNotif m (chosenOf station s) ∈ add) := by
  obtain ⟨asg, pool, history, notifs, rs, trace⟩ := s
  simp only at hpool
  subst hpool
  unfold stepState chosenOf
  dsimp only
  by_cases h1 : (history (chooseBest (scorePool station history (c :: cs) rs).1).1).getLast?
        = some station ∧ station ≠ GreenStation.MUSEUM
  · by_cases h2 : station = GreenStation.PLANETARIUM ∧
        (history (chooseBest (scorePool station history (c :: cs) rs).1).1).contains
          GreenStation.PLANETARIUM
    · refine ⟨[warnRepeatNotif m station (chooseBest (scorePool station history (c :: cs) rs).1).1, warnLimitNotif m (chooseBest (scorePool station history (c :: cs) rs).1).1], ?_, fun _ => by simp⟩
      conv_lhs => unfold assignLoop
      dsimp only
      rw [if_pos h1, if_pos h2]
      simp [List.append_assoc]
    · refine ⟨[warnRepeatNotif m station (chooseBest (scorePool station history (c :: cs) rs).1).1], ?_, fun hcond => absurd hcond h2⟩
      conv_lhs => unfold assignLoop
      dsimp only
      rw [if_pos h1, if_neg h2]
  · by_cases h2 : station = GreenStation.PLANETARIUM ∧
        (history (chooseBest (scorePool station history (c :: cs) rs).1).1).contains
          GreenStation.PLANETARIUM
    · refine ⟨[warnLimitNotif m (chooseBest (scorePool station history (c :: cs) rs).1).1], ?_, fun _ => by simp⟩
      conv_lhs => unfold assignLoop
      dsimp only
      rw [if_neg h1, if_pos h2]
    · refine ⟨[], ?_, fun hcond => absurd hcond h2⟩
      conv_lhs => unfold assignLoop
      dsimp only
      rw [if_neg h1, if_neg h2]
      simp [List.append_assoc]

theorem chosenOf_mem (station : GreenStation) (s : St) (c : String) (cs : List String)
    (hpool : s.pool = c :: cs) : chosenOf station s ∈ s.pool := by
  unfold chosenOf
  have hne : (scorePool station s.history s.pool s.rs).1 ≠ [] := by
    intro h
    have hfst := scorePool_fst station s.history s.pool s.rs
    rw [h, hpool] at hfst
    simp at hfst
  have hmem := chooseBest_mem hne
  have hmap : (chooseBest (scorePool station s.history s.pool s.rs).1).1 ∈
      ((scorePool station s.history s.pool s.rs).1).map Prod.fst :=
    List.mem_map_of_mem Prod.fst hmem
  rwa [scorePool_fst] at hmap

theorem assignLoop_occ (m : RotMeta) (station : GreenStation) (target : Nat) :
    ∀ (k i : Nat) (s : St), s.pool.Nodup →
    ((assignLoop m station target k i s).pool.Nodup ∧
     ∀ q, occCount q (assignLoop m station target k i s).asg
        + (assignLoop m station target k i s).pool.count q
        = occCount q s.asg + s.pool.count q) := by
  intro k
  induction k with
  | zero =>
      intro i s h
      exact ⟨h, fun q => rfl⟩
  | succ k ih =>
      intro i s hnd
      by_cases hpool0 : s.pool = []
      · obtain ⟨add, heq⟩ := assignLoop_empty m station target k i s hpool0
        rw [heq]
        exact ⟨hnd, fun q => rfl⟩
      · obtain ⟨c, cs, hpool⟩ := List.exists_cons_of_ne_nil hpool0
        obtain ⟨add, heq, _⟩ := assignLoop_step m station target k i s c cs hpool
        rw [heq]
        have hch : chosenOf station s ∈ s.pool := chosenOf_mem station s c cs hpool
        have hnd' : (stepState m station add s).pool.Nodup := by
          simp only [stepState]
          exact List.Nodup.filter _ hnd
        obtain ⟨ihnd, ihocc⟩ := ih (i + 1) (stepState m station add s) hnd'
        refine ⟨ihnd, fun q => ?_⟩
        rw [ihocc q]
        simp only [stepState]
        rw [occCount_push]
        by_cases hq : q = chosenOf station s
        · subst hq
          rw [count_filter_ne_self, List.count_eq_one_of_mem hnd hch]
          simp
        · rw [count_filter_ne_other _ _ _ hq, if_neg hq]
          omega

theorem assignLoop_drain (m : RotMeta) (station : GreenStation) (target : Nat) :
    ∀ (k i : Nat) (s : St), s.pool.Nodup → s.pool.length ≤ k →
    (assignLoop m station target k i s).pool = [] := by
  intro k
  induction k with
  | zero =>
      intro i s _ hlen
      have : s.pool = [] := List.eq_nil_of_length_eq_zero (by omega)
      rw [assignLoop_zero]
      exact this
  | succ k ih =>
      intro i s hnd hlen
      by_cases hpool0 : s.pool = []
      · obtain ⟨add, heq⟩ := assignLoop_empty m station target k i s hpool0
        rw [heq]
        exact hpool0
      · obtain ⟨c, cs, hpool⟩ := List.exists_cons_of_ne_nil hpool0
        obtain ⟨add, heq, _⟩ := assignLoop_step m station target k i s c cs hpool
        rw [heq]
        have hch : chosenOf station s ∈ s.pool := chosenOf_mem station s c cs hpool
        apply ih
        · simp only [stepState]
          exact List.Nodup.filter _ hnd
        · simp only [stepState]
          rw [← List.Nodup.erase_eq_filter hnd, List.length_erase_of_mem hch]
          rw [hpool] at hlen ⊢
          simp at hlen ⊢
          omega

theorem assignLoop_offside (m : RotMeta) (station : GreenStation) (target : Nat)
    (hst : realStation station) : ∀ (k i : Nat) (s : St),
    ((assignLoop m station target k i s).asg.get .OFF_SHIFT = s.asg.get .OFF_SHIFT ∧
     (assignLoop m station target k i s).asg.get .SIDE_TASK = s.asg.get .SIDE_TASK) := by
  intro k
  induction k with
  | zero =>
      intro i s
      exact ⟨rfl, rfl⟩
  | succ k ih =>
      intro i s
      by_cases hpool0 : s.pool = []
      · obtain ⟨add, heq⟩ := assignLoop_empty m station target k i s hpool0
        rw [heq]
        exact ⟨rfl, rfl⟩
      · obtain ⟨c, cs, hpool⟩ := List.exists_cons_of_ne_nil hpool0
        obtain ⟨add, heq, _⟩ := assignLoop_step m station target k i s c cs hpool
        rw [heq]
        obtain ⟨ih1, ih2⟩ := ih (i + 1) (stepState m station add s)
        rw [ih1, ih2]
        simp only [stepState]
        constructor
        · exact Assignments.get_push_ne _ _ (fun h => hst.2 h.symm)
        · exact Assignments.get_push_ne _ _ (fun h => hst.1 h.symm)

theorem assignLoop_untouched (m : RotMeta) (station : GreenStation) (target : Nat) :
    ∀ (k i : Nat) (s : St) (p : String), p ∉ s.pool →
    ((assignLoop m station target k i s).history p = s.history p ∧
     p ∉ (assignLoop m station target k i s).pool ∧
     ∀ st, ((assignLoop m station target k i s).asg.get st).count p
         = (s.asg.get st).count p) := by
  intro k
  induction k with
  | zero =>
      intro i s p hp
      exact ⟨rfl, hp, fun st => rfl⟩
  | succ k ih =>
      intro i s p hp
      by_cases hpool0 : s.pool = []
      · obtain ⟨add, heq⟩ := assignLoop_empty m station target k i s hpool0
        rw [heq]
        exact ⟨rfl, hp, fun st => rfl⟩
      · obtain ⟨c, cs, hpool⟩ := List.exists_cons_of_ne_nil hpool0
        obtain ⟨add, heq, _⟩ := assignLoop_step m station target k i s c cs hpool
        rw [heq]
        have hch : chosenOf station s ∈ s.pool := chosenOf_mem station s c cs hpool
        have hpch : p ≠ chosenOf station s := by
          intro h
          rw [h] at hp
          exact hp hch
        have hp' : p ∉ (stepState m station add s).pool := by
          simp only [stepState]
          intro hmem
          exact hp (List.mem_of_mem_filter hmem)
        obtain ⟨ih1, ih2, ih3⟩ := ih (i + 1) (stepState m station add s) p hp'
        refine ⟨?_, ih2, ?_⟩
        · rw [ih1]
          simp only [stepState]
          simp [pushHist, hpch]
        · intro st
          rw [ih3 st]
          simp only [stepState]
          by_cases hsq : st = station
          · rw [hsq, Assignments.get_push_self, List.count_append]
            have : List.count p [chosenOf station s] = 0 := by
              rw [List.count_eq_zero]
              intro hmem
              exact hpch (List.mem_singleton.mp hmem)
            omega
          · rw [Assignments.get_push_ne _ _ hsq]

theorem assignLoop_histlen (m : RotMeta) (station : GreenStation) (target : Nat) :
    ∀ (k i : Nat) (s : St) (p : String), s.pool.Nodup → p ∈ s.pool →
    ((assignLoop m station target k i s).history p).length
      = (s.history p).length
        + (if p ∈ (assignLoop m station target k i s).pool then 0 else 1) := by
  intro k
  induction k with
  | zero =>
      intro i s p _ hp
      rw [assignLoop_zero, if_pos hp]
      omega
  | succ k ih =>
      intro i s p hnd hp
      by_cases hpool0 : s.pool = []
      · rw [hpool0] at hp
        exact absurd hp (by simp)
      · obtain ⟨c, cs, hpool⟩ := List.exists_cons_of_ne_nil hpool0
        obtain ⟨add, heq, _⟩ := assignLoop_step m station target k i s c cs hpool
        rw [heq]
        by_cases hpch : p = chosenOf station s
        · have hp' : p ∉ (stepState m station add s).pool := by
            simp only [stepState]
            intro hmem
            have := (mem_filter_ne _ _ _).mp hmem
            exact this.2 hpch
          obtain ⟨ih1, ih2, _⟩ :=
            assignLoop_untouched m station target k (i + 1) (stepState m station add s) p hp'
          rw [ih1, if_neg ih2]
          simp only [stepState]
          rw [hpch]
          simp [pushHist]
        · have hp' : p ∈ (stepState m station add s).pool := by
            simp only [stepState]
            exact (mem_filter_ne _ _ _).mpr ⟨hp, hpch⟩
          have hnd' : (stepState m station add s).pool.Nodup := by
            simp only [stepState]
            exact List.Nodup.filter _ hnd
          have ihl := ih (i + 1) (stepState m station add s) p hnd' hp'
          rw [ihl]
          have hh : (stepState m station add s).history p = s.history p := by
            simp only [stepState]
            simp [pushHist, hpch]
          rw [hh]

theorem assignLoop_notifs_mono (m : RotMeta) (station : GreenStation) (target : Nat) :
    ∀ (k i : Nat) (s : St),
    ∃ add, (assignLoop m station target k i s).notifs = s.notifs ++ add := by
  intro k
  induction k with
  | zero =>
      intro i s
      exact ⟨[], by rw [assignLoop_zero]; simp⟩
  | succ k ih =>
      intro i s
      by_cases hpool0 : s.pool = []
      · obtain ⟨add, heq⟩ := assignLoop_empty m station target k i s hpool0
        rw [heq]
        exact ⟨add, rfl⟩
      · obtain ⟨c, cs, hpool⟩ := List.exists_cons_of_ne_nil hpool0
        obtain ⟨add, heq, _⟩ := assignLoop_step m station target k i s c cs hpool
        rw [heq]
        obtain ⟨add2, h2⟩ := ih (i + 1) (stepState m station add s)
        refine ⟨add ++ add2, ?_⟩
        rw [h2]
        simp only [stepState]
        rw [List.append_assoc]

theorem assignLoop_aroraInv (m : RotMeta) (station : GreenStation) (target : Nat) :
    ∀ (k i : Nat) (s : St), aroraInv s → aroraInv (assignLoop m station target k i s) := by
  intro k
  induction k with
  | zero =>
      intro i s h
      exact h
  | succ k ih =>
      intro i s h
      by_cases hpool0 : s.pool = []
      · obtain ⟨add, heq⟩ := assignLoop_empty m station target k i s hpool0
        rw [heq]
        intro q
        rcases h q with hc | hc
        · exact Or.inl hc
        · exact Or.inr (aroraFlagged_mono hc)
      · obtain ⟨c, cs, hpool⟩ := List.exists_cons_of_ne_nil hpool0
        obtain ⟨add, heq, harora⟩ := assignLoop_step m station target k i s c cs hpool
        rw [heq]
        apply ih
        intro q
        simp only [stepState]
        by_cases hq : q = chosenOf station s
        · by_cases hP : station = GreenStation.PLANETARIUM
          · rcases h q with hc | hc
            · by_cases hzero : (s.history q).count GreenStation.PLANETARIUM = 0
              · left
                rw [hq]
                simp only [pushHist, if_pos rfl, if_true]
                rw [List.count_append, ← hq, hzero, hP]
                simp
              · right
                have hcont : (s.history (chosenOf station s)).contains
                    GreenStation.PLANETARIUM = true := by
                  rw [← hq]
                  apply List.elem_eq_true_of_mem
                  exact List.count_pos_iff.mp (by omega)
                have hin := harora ⟨hP, hcont⟩
                refine ⟨warnLimitNotif m (chosenOf station s),
                  List.mem_append_right _ hin, Or.inr rfl, m.id, Or.inr ?_⟩
                rw [hq]
                rfl
            · exact Or.inr (aroraFlagged_mono hc)
          · rcases h q with hc | hc
            · left
              rw [hq]
              simp only [pushHist, if_pos rfl, if_true]
              rw [List.count_append, ← hq]
              have hz : List.count GreenStation.PLANETARIUM [station] = 0 := by
                rw [List.count_eq_zero]
                intro hmem
                exact hP (List.mem_singleton.mp hmem).symm
              omega
            · exact Or.inr (aroraFlagged_mono hc)
        · have hh : pushHist s.history (chosenOf station s) station q = s.history q := by
            simp [pushHist, hq]
          rw [hh]
          rcases h q with hc | hc
          · exact Or.inl hc
          · exact Or.inr (aroraFlagged_mono hc)

theorem assignLoop_good (m : RotMeta) (station : GreenStation) (target : Nat)
    (hst : realStation station) (h0 : String → List GreenStation) :
    ∀ (k i : Nat) (s : St), s.pool.Nodup → poolFreshOK s → histCountOK h0 s →
    ((assignLoop m station target k i s).pool.Nodup ∧
     poolFreshOK (assignLoop m station target k i s) ∧
     histCountOK h0 (assignLoop m station target k i s) ∧
     ∀ ev ∈ (assignLoop m station target k i s).trace, ev ∈ s.trace ∨
       (ev.station = station ∧ ev.pool ≠ [] ∧
        (∀ x ∈ ev.pool, (ev.history x).count ev.station ≤ (h0 x).count ev.station) ∧
        ∃ rsv, ev.chosen = (chooseBest (scorePool ev.station ev.history ev.pool rsv).1).1)) := by
  intro k
  induction k with
  | zero =>
      intro i s h1 h2 h3
      exact ⟨h1, h2, h3, fun ev hev => Or.inl hev⟩
  | succ k ih =>
      intro i s hnd hfresh hcnt
      by_cases hpool0 : s.pool = []
      · obtain ⟨add, heq⟩ := assignLoop_empty m station target k i s hpool0
        rw [heq]
        exact ⟨hnd, hfresh, hcnt, fun ev hev => Or.inl hev⟩
      · obtain ⟨c, cs, hpool⟩ := List.exists_cons_of_ne_nil hpool0
        obtain ⟨add, heq, _⟩ := assignLoop_step m station target k i s c cs hpool
        rw [heq]
        have hch : chosenOf station s ∈ s.pool := chosenOf_mem station s c cs hpool
        have hnd' : (stepState m station add s).pool.Nodup := by
          simp only [stepState]
          exact List.Nodup.filter _ hnd
        have hfresh' : poolFreshOK (stepState m station add s) := by
          intro q hq st' hst'
          simp only [stepState] at hq ⊢
          have hqs := (mem_filter_ne _ _ _).mp hq
          by_cases hsq : st' = station
          · rw [hsq, Assignments.get_push_self]
            intro hmem
            rcases List.mem_append.mp hmem with hmem | hmem
            · exact hfresh q hqs.1 station hst hmem
            · exact hqs.2 (List.mem_singleton.mp hmem)
          · rw [Assignments.get_push_ne _ _ hsq]
            exact hfresh q hqs.1 st' hst'
        have hcnt' : histCountOK h0 (stepState m station add s) := by
          intro q st' hst'
          simp only [stepState]
          by_cases hq : q = chosenOf station s
          · by_cases hsq : st' = station
            · rw [hq, hsq]
              simp only [pushHist, if_pos rfl, if_true]
              rw [List.count_append]
              simp only [Assignments.get_push_self]
              have hnotin : chosenOf station s ∉ s.asg.get station :=
                hfresh _ hch station hst
              have hbound := hcnt (chosenOf station s) station hst
              rw [if_neg hnotin] at hbound
              rw [if_pos (List.mem_append_right _ (by simp))]
              simp only [List.count_singleton, beq_self_eq_true, if_true]
              omega
            · have hcount : (pushHist s.history (chosenOf station s) station q).count st'
                  = (s.history q).count st' := by
                rw [hq]
                simp only [pushHist, if_pos rfl, if_true]
                rw [List.count_append]
                have hz : List.count st' [station] = 0 := by
                  rw [List.count_eq_zero]
                  intro hmem
                  exact hsq (List.mem_singleton.mp hmem)
                omega
              rw [hcount]
              simp only [Assignments.get_push_ne _ _ hsq]
              rw [hq]
              exact hcnt _ st' hst'
          · have hh : pushHist s.history (chosenOf station s) station q = s.history q := by
              simp [pushHist, hq]
            rw [hh]
            by_cases hsq : st' = station
            · rw [hsq]
              simp only [Assignments.get_push_self]
              have hbound := hcnt q station hst
              by_cases hmem : q ∈ s.asg.get station
              · rw [if_pos hmem] at hbound
                rw [if_pos (List.mem_append_left _ hmem)]
                exact hbound
              · rw [if_neg hmem] at hbound
                split <;> omega
            · simp only [Assignments.get_push_ne _ _ hsq]
              exact hcnt q st' hst'
        obtain ⟨g1, g2, g3, g4⟩ := ih (i + 1) (stepState m station add s) hnd' hfresh' hcnt'
        refine ⟨g1, g2, g3, fun ev hev => ?_⟩
        rcases g4 ev hev with hin | hgood
        · simp only [stepState] at hin
          rcases List.mem_append.mp hin with hin | hin
          · exact Or.inl hin
          · right
            have hevq : ev = ({ rotationId := m.id, station := station, pool := s.pool, history := s.history, chosen := chosenOf station s } : FillEvent) := by
              simpa using hin
            rw [hevq]
            refine ⟨rfl, by rw [hpool]; simp, ?_, ⟨s.rs, rfl⟩⟩
            intro x hx
            have hb := hcnt x station hst
            rw [if_neg (hfresh x hx station hst)] at hb
            simpa using hb
        · exact Or.inr hgood

theorem assignLoop_pool_subset (m : RotMeta) (station : GreenStation) (target : Nat) :
    ∀ (k i : Nat) (s : St) (q : String),
    q ∈ (assignLoop m station target k i s).pool → q ∈ s.pool := by
  intro k
  induction k with
  | zero =>
      intro i s q hq
      exact hq
  | succ k ih =>
      intro i s q hq
      by_cases hpool0 : s.pool = []
      · obtain ⟨add, heq⟩ := assignLoop_empty m station target k i s hpool0
        rw [heq] at hq
        exact hq
      · obtain ⟨c, cs, hpool⟩ := List.exists_cons_of_ne_nil hpool0
        obtain ⟨add, heq, _⟩ := assignLoop_step m station target k i s c cs hpool
        rw [heq] at hq
        have hq2 := ih (i + 1) (stepState m station add s) q hq
        simp only [stepState] at hq2
        exact ((mem_filter_ne _ _ _).mp hq2).1

theorem assignLoop_mem_mono (m : RotMeta) (station : GreenStation) (target : Nat) :
    ∀ (k i : Nat) (s : St) (q : String) (st : GreenStation),
    q ∈ s.asg.get st → q ∈ (assignLoop m station target k i s).asg.get st := by
  intro k
  induction k with
  | zero =>
      intro i s q st hq
      exact hq
  | succ k ih =>
      intro i s q st hq
      by_cases hpool0 : s.pool = []
      · obtain ⟨add, heq⟩ := assignLoop_empty m station target k i s hpool0
        rw [heq]
        exact hq
      · obtain ⟨c, cs, hpool⟩ := List.exists_cons_of_ne_nil hpool0
        obtain ⟨add, heq, _⟩ := assignLoop_step m station target k i s c cs hpool
        rw [heq]
        apply ih
        simp only [stepState]
        by_cases hsq : st = station
        · rw [hsq, Assignments.get_push_self]
          rw [hsq] at hq
          exact List.mem_append_left _ hq
        · rw [Assignments.get_push_ne _ _ hsq]
          exact hq

/-- The core no-repeat property of one selection: the scorer never picks a
candidate whose last station equals the station being filled while the pool
holds a candidate whose last station differs (and whose station count is
within the engine's reachable bound). -/
theorem chosen_no_repeat (station : GreenStation) (h : String → List GreenStation)
    (pool : List String) (rsv : RandomStream) (x : String) (hx : x ∈ pool)
    (hxnr : (h x).getLast? ≠ some station) (hcx : (h x).count station ≤ 5) :
    (h (chooseBest (scorePool station h pool rsv).1).1).getLast? ≠ some station := by
  intro hrep
  have hne : (scorePool station h pool rsv).1 ≠ [] := by
    intro hnil
    have hfst := scorePool_fst station h pool rsv
    rw [hnil] at hfst
    rw [← hfst] at hx
    simp at hx
  obtain ⟨scx, hmemx, rx, hrx0, hrx1, hscx⟩ := scorePool_exists station h pool rsv x hx
  have hmemb := chooseBest_mem hne
  obtain ⟨rb, hrb0, hrb1, hscb⟩ := scorePool_shape station h pool rsv _ hmemb
  have hle := chooseBest_le hne (x, scx) hmemx
  have hlt : scoreOf station (h x) rx
      < scoreOf station (h (chooseBest (scorePool station h pool rsv).1).1) rb :=
    scoreOf_lt_of_repeat station _ _ hrep hxnr hcx hrb0 hrx0 hrx1
  rw [hscx] at hle
  rw [hscb] at hle
  simp only at hle
  linarith

theorem headD_mem_of_ne_nil {α : Type} (l : List α) (d : α) (h : l ≠ []) :
    l.headD d ∈ l := by
  cases l with
  | nil => exact absurd rfl h
  | cons a as => exact List.mem_cons_self a as

theorem count_filter_pred (pr : String → Bool) (p : String) :
    ∀ l : List String, (l.filter pr).count p = if pr p then l.count p else 0 := by
  intro l
  induction l with
  | nil => simp
  | cons a as ih =>
      by_cases hpa : pr a = true
      · rw [List.filter_cons_of_pos hpa]
        by_cases hap : a = p
        · subst hap
          rw [List.count_cons_self, ih, List.count_cons_self, if_pos hpa]
          rw [if_pos hpa]
        · have h1 : (a :: List.filter pr as).count p = (List.filter pr as).count p :=
            List.count_cons_of_ne (fun h => hap h.symm) _
          have h2 : (a :: as).count p = as.count p :=
            List.count_cons_of_ne (fun h => hap h.symm) _
          rw [h1, h2, ih]
      · rw [List.filter_cons_of_neg (by simpa using hpa), ih]
        by_cases hap : a = p
        · subst hap
          rw [List.count_cons_self]
          rw [if_neg hpa, if_neg hpa]
        · have h2 : (a :: as).count p = as.count p :=
            List.count_cons_of_ne (fun h => hap h.symm) _
          rw [h2]

/-- The three availability outcomes are mutually exclusive and exhaustive. -/
theorem avail_partition (inp : Inputs) (m : RotMeta) (p : String) :
    (if toOff inp m p then 1 else 0) + (if toSide inp m p then 1 else 0)
      + (if toPool inp m p then 1 else 0) = 1 := by
  unfold toOff toSide toPool
  cases hpres : isPresent inp.shiftExceptions m p
  · simp [hpres]
  · cases hfind : inp.sideTasks.find? (fun t => t.rotationId == m.id && t.employeeId == p)
    · simp [hpres, hfind]
    · simp [hpres, hfind]

/-! ### The stages of one rotation -/

/-- The state after the availability resolver of one rotation (the per-rotation
`assignments` and `availableEmployees` are freshly reset first). -/
def postCat (inp : Inputs) (m : RotMeta) (s0 : St) : St :=
  (mkEmployees inp.numEmployees).foldl (categorizeOne inp m)
    { s0 with asg := Assignments.empty, pool := [] }

/-- The state after this rotation's forced assignments have been applied. -/
def postForce (inp : Inputs) (m : RotMeta) (s0 : St) : St :=
  (inp.forcedAssignments.filter (fun f => f.rotationId == m.id)).foldl (applyForce m)
    (postCat inp m s0)

/-- The state after the pool shuffle. -/
def postShuffle (inp : Inputs) (m : RotMeta) (s0 : St) : St :=
  { postForce inp m s0 with
    pool := (shuffle (postForce inp m s0).pool (postForce inp m s0).rs).1,
    rs := (shuffle (postForce inp m s0).pool (postForce inp m s0).rs).2 }

/-- The five station fills of one rotation, in the source's order. -/
def fillPhase (m : RotMeta) (s : St) : St :=
  let s4 := assignBestCandidates m .TICKET 1 s
  let s5 := assignBestCandidates m .GREETER 1 s4
  let s6 := assignBestCandidates m .PLANETARIUM 1 s5
  let s7 := assignBestCandidates m .TICKET 2 s6
  assignBestCandidates m .MUSEUM ((s7.asg.get .MUSEUM).length + s7.pool.length) s7

theorem processRotation_eq (inp : Inputs) (m : RotMeta) (s0 : St) :
    processRotation inp m s0 =
      (fillPhase m (postShuffle inp m s0),
       ⟨m.id, m.start ++ " - " ++ m.stop, (fillPhase m (postShuffle inp m s0)).asg⟩) := rfl

theorem postCat_pool (inp : Inputs) (m : RotMeta) (s0 : St) :
    (postCat inp m s0).pool = (mkEmployees inp.numEmployees).filter (toPool inp m) := by
  unfold postCat
  rw [categorize_foldl]
  simp

theorem postCat_pool_nodup (inp : Inputs) (m : RotMeta) (s0 : St) :
    (postCat inp m s0).pool.Nodup := by
  rw [postCat_pool]
  exact List.Nodup.filter _ (mkEmployees_nodup inp.numEmployees)

theorem postCat_get_real (inp : Inputs) (m : RotMeta) (s0 : St) {st : GreenStation}
    (hst : realStation st) : (postCat inp m s0).asg.get st = [] := by
  unfold postCat
  rw [categorize_foldl]
  obtain ⟨h1, h2⟩ := hst
  cases st with
  | SIDE_TASK => exact absurd rfl h1
  | OFF_SHIFT => exact absurd rfl h2
  | TICKET => rfl
  | GREETER => rfl
  | PLANETARIUM => rfl
  | MUSEUM => rfl

theorem postCat_get_off (inp : Inputs) (m : RotMeta) (s0 : St) :
    (postCat inp m s0).asg.get GreenStation.OFF_SHIFT
      = (mkEmployees inp.numEmployees).filter (toOff inp m) := by
  unfold postCat
  rw [categorize_foldl]
  simp [Assignments.get, Assignments.empty]

theorem postCat_get_side (inp : Inputs) (m : RotMeta) (s0 : St) :
    (postCat inp m s0).asg.get GreenStation.SIDE_TASK
      = (mkEmployees inp.numEmployees).filter (toSide inp m) := by
  unfold postCat
  rw [categorize_foldl]
  simp [Assignments.get, Assignments.empty]

theorem postCat_hist (inp : Inputs) (m : RotMeta) (s0 : St) (p : String) :
    (postCat inp m s0).history p = s0.history p ++
      List.replicate (((mkEmployees inp.numEmployees).filter (toSide inp m)).count p)
        GreenStation.SIDE_TASK := by
  unfold postCat
  rw [categorize_foldl]

theorem postCat_hist_count_real (inp : Inputs) (m : RotMeta) (s0 : St) (p : String)
    {st : GreenStation} (hst : realStation st) :
    ((postCat inp m s0).history p).count st = (s0.history p).count st := by
  rw [postCat_hist, List.count_append]
  have hz : (List.replicate (((mkEmployees inp.numEmployees).filter (toSide inp m)).count p)
      GreenStation.SIDE_TASK).count st = 0 := by
    rw [List.count_replicate]
    rw [if_neg]
    intro h
    exact hst.1 (beq_iff_eq.mp h).symm
  omega

theorem postCat_rs (inp : Inputs) (m : RotMeta) (s0 : St) :
    (postCat inp m s0).rs = s0.rs := by
  unfold postCat
  rw [categorize_foldl]

theorem postCat_trace (inp : Inputs) (m : RotMeta) (s0 : St) :
    (postCat inp m s0).trace = s0.trace := by
  unfold postCat
  rw [categorize_foldl]

theorem postCat_notifs (inp : Inputs) (m : RotMeta) (s0 : St) :
    (postCat inp m s0).notifs = s0.notifs ++
      ((mkEmployees inp.numEmployees).filter (toSide inp m)).map (sideNotif m) := by
  unfold postCat
  rw [categorize_foldl]

theorem postCat_occ (inp : Inputs) (m : RotMeta) (s0 : St) (p : String)
    (hp : p ∈ mkEmployees inp.numEmployees) :
    occCount p (postCat inp m s0).asg + (postCat inp m s0).pool.count p = 1 := by
  unfold postCat
  rw [categorize_foldl]
  simp only [occCount, Assignments.empty]
  have hc : (mkEmployees inp.numEmployees).count p = 1 :=
    List.count_eq_one_of_mem (mkEmployees_nodup inp.numEmployees) hp
  simp only [List.nil_append, List.count_nil]
  rw [count_filter_pred (toOff inp m) p, count_filter_pred (toSide inp m) p,
    count_filter_pred (toPool inp m) p, hc]
  have hpart := avail_partition inp m p
  omega

theorem histCountOK_self (s : St) : histCountOK s.history s := by
  intro p st _
  split <;> omega

theorem postCat_fresh (inp : Inputs) (m : RotMeta) (s0 : St) :
    poolFreshOK (postCat inp m s0) := by
  intro q _ st hst
  rw [postCat_get_real inp m s0 hst]
  simp

theorem postForce_rs (inp : Inputs) (m : RotMeta) (s0 : St) :
    (postForce inp m s0).rs = s0.rs := by
  unfold postForce
  rw [forceFold_rs, postCat_rs]

theorem postForce_trace (inp : Inputs) (m : RotMeta) (s0 : St) :
    (postForce inp m s0).trace = s0.trace := by
  unfold postForce
  rw [forceFold_trace, postCat_trace]

theorem postForce_pool (inp : Inputs) (m : RotMeta) (s0 : St) :
    (postForce inp m s0).pool.Nodup ∧
    ∀ q ∈ (postForce inp m s0).pool, q ∈ (postCat inp m s0).pool ∧
      ∀ f ∈ inp.forcedAssignments.filter (fun f => f.rotationId == m.id),
        q ≠ f.employeeId := by
  unfold postForce
  exact forceFold_pool m _ _ (postCat_pool_nodup inp m s0)

theorem postForce_invariants (inp : Inputs) (m : RotMeta) (s0 : St) :
    (postForce inp m s0).pool.Nodup ∧ poolFreshOK (postForce inp m s0) ∧
    histCountOK (postCat inp m s0).history (postForce inp m s0) := by
  unfold postForce
  exact forceFold_invariants m _ _ _ (postCat_pool_nodup inp m s0)
    (postCat_fresh inp m s0) (histCountOK_self _)

theorem postForce_occ (inp : Inputs) (m : RotMeta) (s0 : St) (p : String)
    (hpair : (inp.forcedAssignments.filter (fun f => f.rotationId == m.id)).Pairwise
      (fun f g => f.employeeId ≠ g.employeeId))
    (hp : p ∈ mkEmployees inp.numEmployees) :
    occCount p (postForce inp m s0).asg + (postForce inp m s0).pool.count p = 1 := by
  unfold postForce
  apply forceFold_occ m _ _ p hpair
  · intro st hst f _
    rw [postCat_get_real inp m s0 hst]
    simp
  · exact postCat_occ inp m s0 p hp

theorem postForce_mem_real (inp : Inputs) (m : RotMeta) (s0 : St) (f : ForcedAssignment)
    (hf : f ∈ inp.forcedAssignments) (hid : f.rotationId = m.id)
    (hst : realStation f.station) :
    f.employeeId ∈ (postForce inp m s0).asg.get f.station := by
  unfold postForce
  apply forceFold_mem_real m _ _ f _ hst
  rw [List.mem_filter]
  exact ⟨hf, by simp [hid]⟩

theorem postCat_aroraInv (inp : Inputs) (m : RotMeta) (s0 : St) (h : aroraInv s0) :
    aroraInv (postCat inp m s0) := by
  intro p
  rcases h p with hc | hc
  · left
    rw [postCat_hist_count_real inp m s0 p (by constructor <;> intro h' <;> cases h')]
    exact hc
  · right
    rw [postCat_notifs]
    exact aroraFlagged_mono hc

theorem postForce_aroraInv (inp : Inputs) (m : RotMeta) (s0 : St) (h : aroraInv s0) :
    aroraInv (postForce inp m s0) := by
  unfold postForce
  exact forceFold_aroraInv m _ _ (postCat_aroraInv inp m s0 h)

theorem postShuffle_asg (inp : Inputs) (m : RotMeta) (s0 : St) :
    (postShuffle inp m s0).asg = (postForce inp m s0).asg := rfl

theorem postShuffle_history (inp : Inputs) (m : RotMeta) (s0 : St) :
    (postShuffle inp m s0).history = (postForce inp m s0).history := rfl

theorem postShuffle_notifs (inp : Inputs) (m : RotMeta) (s0 : St) :
    (postShuffle inp m s0).notifs = (postForce inp m s0).notifs := rfl

theorem postShuffle_trace (inp : Inputs) (m : RotMeta) (s0 : St) :
    (postShuffle inp m s0).trace = (postForce inp m s0).trace := rfl

theorem postShuffle_pool_count (inp : Inputs) (m : RotMeta) (s0 : St) (q : String) :
    (postShuffle inp m s0).pool.count q = (postForce inp m s0).pool.count q := by
  unfold postShuffle
  exact shuffle_count _ _ q

theorem postShuffle_mem (inp : Inputs) (m : RotMeta) (s0 : St) (q : String) :
    q ∈ (postShuffle inp m s0).pool ↔ q ∈ (postForce inp m s0).pool := by
  unfold postShuffle
  exact mem_shuffle _ _ q

theorem postShuffle_nodup (inp : Inputs) (m : RotMeta) (s0 : St) :
    (postShuffle inp m s0).pool.Nodup := by
  unfold postShuffle
  exact nodup_shuffle _ _ (postForce_pool inp m s0).1

theorem postShuffle_fresh (inp : Inputs) (m : RotMeta) (s0 : St) :
    poolFreshOK (postShuffle inp m s0) := by
  intro q hq st hst
  rw [postShuffle_asg]
  exact (postForce_invariants inp m s0).2.1 q ((postShuffle_mem inp m s0 q).mp hq) st hst

theorem postShuffle_histCountOK (inp : Inputs) (m : RotMeta) (s0 : St) :
    histCountOK (postCat inp m s0).history (postShuffle inp m s0) := by
  intro p st hst
  exact (postForce_invariants inp m s0).2.2 p st hst

theorem postShuffle_aroraInv (inp : Inputs) (m : RotMeta) (s0 : St) (h : aroraInv s0) :
    aroraInv (postShuffle inp m s0) := by
  intro p
  exact postForce_aroraInv inp m s0 h p

theorem fill_occ (m : RotMeta) (st : GreenStation) (t : Nat) (s : St)
    (hnd : s.pool.Nodup) :
    (assignBestCandidates m st t s).pool.Nodup ∧
    ∀ q, occCount q (assignBestCandidates m st t s).asg
        + (assignBestCandidates m st t s).pool.count q
        = occCount q s.asg + s.pool.count q := by
  unfold assignBestCandidates
  exact assignLoop_occ m st t _ 0 s hnd

theorem fill_mem_mono (m : RotMeta) (st : GreenStation) (t : Nat) (s : St)
    (q : String) (st' : GreenStation) (hq : q ∈ s.asg.get st') :
    q ∈ (assignBestCandidates m st t s).asg.get st' := by
  unfold assignBestCandidates
  exact assignLoop_mem_mono m st t _ 0 s q st' hq

theorem fill_offside (m : RotMeta) (st : GreenStation) (t : Nat) (s : St)
    (hst : realStation st) :
    (assignBestCandidates m st t s).asg.get .OFF_SHIFT = s.asg.get .OFF_SHIFT ∧
    (assignBestCandidates m st t s).asg.get .SIDE_TASK = s.asg.get .SIDE_TASK := by
  unfold assignBestCandidates
  exact assignLoop_offside m st t hst _ 0 s

theorem fill_untouched (m : RotMeta) (st : GreenStation) (t : Nat) (s : St)
    (p : String) (hp : p ∉ s.pool) :
    (assignBestCandidates m st t s).history p = s.history p ∧
    p ∉ (assignBestCandidates m st t s).pool ∧
    ∀ st', ((assignBestCandidates m st t s).asg.get st').count p
        = (s.asg.get st').count p := by
  unfold assignBestCandidates
  exact assignLoop_untouched m st t _ 0 s p hp

theorem fill_aroraInv (m : RotMeta) (st : GreenStation) (t : Nat) (s : St)
    (h : aroraInv s) : aroraInv (assignBestCandidates m st t s) := by
  unfold assignBestCandidates
  exact assignLoop_aroraInv m st t _ 0 s h

theorem fill_good (m : RotMeta) (st : GreenStation) (t : Nat) (s : St)
    (hst : realStation st) (h0 : String → List GreenStation)
    (h1 : s.pool.Nodup) (h2 : poolFreshOK s) (h3 : histCountOK h0 s) :
    (assignBestCandidates m st t s).pool.Nodup ∧
    poolFreshOK (assignBestCandidates m st t s) ∧
    histCountOK h0 (assignBestCandidates m st t s) ∧
    ∀ ev ∈ (assignBestCandidates m st t s).trace, ev ∈ s.trace ∨
      (ev.station = st ∧ ev.pool ≠ [] ∧
       (∀ x ∈ ev.pool, (ev.history x).count ev.station ≤ (h0 x).count ev.station) ∧
       ∃ rsv, ev.chosen = (chooseBest (scorePool ev.station ev.history ev.pool rsv).1).1) := by
  unfold assignBestCandidates
  exact assignLoop_good m st t hst h0 _ 0 s h1 h2 h3

theorem fill_pool_subset (m : RotMeta) (st : GreenStation) (t : Nat) (s : St)
    (q : String) (hq : q ∈ (assignBestCandidates m st t s).pool) : q ∈ s.pool := by
  unfold assignBestCandidates at hq
  exact assignLoop_pool_subset m st t _ 0 s q hq

/-- The history-length bookkeeping for one tracked person through the fill
phase: the person is still pooled with history length `L`, or has been
assigned once and the history has grown to `L + 1`. -/
def histMark (p : String) (L : Nat) (s : St) : Prop :=
  s.pool.Nodup ∧
  ((p ∈ s.pool ∧ (s.history p).length = L) ∨
   (p ∉ s.pool ∧ (s.history p).length = L + 1))

theorem fill_histMark (m : RotMeta) (st : GreenStation) (t : Nat) (s : St)
    (p : String) (L : Nat) (h : histMark p L s) :
    histMark p L (assignBestCandidates m st t s) := by
  obtain ⟨hnd, hcase⟩ := h
  have hnd' := (fill_occ m st t s hnd).1
  rcases hcase with ⟨hin, hlen⟩ | ⟨hout, hlen⟩
  · have hgrow : ((assignBestCandidates m st t s).history p).length
        = (s.history p).length
          + (if p ∈ (assignBestCandidates m st t s).pool then 0 else 1) := by
      unfold assignBestCandidates
      exact assignLoop_histlen m st t _ 0 s p hnd hin
    refine ⟨hnd', ?_⟩
    by_cases hm : p ∈ (assignBestCandidates m st t s).pool
    · left
      rw [hgrow, if_pos hm, hlen]
      exact ⟨hm, by omega⟩
    · right
      rw [hgrow, if_neg hm, hlen]
      exact ⟨hm, rfl⟩
  · obtain ⟨heq, hnot, _⟩ := fill_untouched m st t s p hout
    exact ⟨hnd', Or.inr ⟨hnot, by rw [heq]; exact hlen⟩⟩

theorem fillPhase_pool_nil (m : RotMeta) (s : St) (hnd : s.pool.Nodup) :
    (fillPhase m s).pool = [] := by
  unfold fillPhase
  dsimp only
  have h4 := (fill_occ m .TICKET 1 s hnd).1
  have h5 := (fill_occ m .GREETER 1 _ h4).1
  have h6 := (fill_occ m .PLANETARIUM 1 _ h5).1
  have h7 := (fill_occ m .TICKET 2 _ h6).1
  unfold assignBestCandidates
  rw [Nat.add_sub_cancel_left]
  exact assignLoop_drain m .MUSEUM _ _ 0 _ h7 (le_refl _)

theorem realStation_TICKET : realStation GreenStation.TICKET := by
  constructor <;> intro h <;> cases h

theorem realStation_GREETER : realStation GreenStation.GREETER := by
  constructor <;> intro h <;> cases h

theorem realStation_PLANETARIUM : realStation GreenStation.PLANETARIUM := by
  constructor <;> intro h <;> cases h

theorem realStation_MUSEUM : realStation GreenStation.MUSEUM := by
  constructor <;> intro h <;> cases h

theorem fillPhase_occ (m : RotMeta) (s : St) (hnd : s.pool.Nodup) (q : String) :
    occCount q (fillPhase m s).asg = occCount q s.asg + s.pool.count q := by
  have hnil := fillPhase_pool_nil m s hnd
  unfold fillPhase at hnil ⊢
  dsimp only at hnil ⊢
  obtain ⟨n4, e4⟩ := fill_occ m .TICKET 1 s hnd
  obtain ⟨n5, e5⟩ := fill_occ m .GREETER 1 _ n4
  obtain ⟨n6, e6⟩ := fill_occ m .PLANETARIUM 1 _ n5
  obtain ⟨n7, e7⟩ := fill_occ m .TICKET 2 _ n6
  obtain ⟨n8, e8⟩ := fill_occ m .MUSEUM _ _ n7
  have := e8 q
  rw [e7 q, e6 q, e5 q, e4 q] at this
  rw [hnil] at this
  simpa using this

theorem fillPhase_mem_mono (m : RotMeta) (s : St) (q : String) (st : GreenStation)
    (hq : q ∈ s.asg.get st) : q ∈ (fillPhase m s).asg.get st := by
  unfold fillPhase
  dsimp only
  exact fill_mem_mono m .MUSEUM _ _ q st (fill_mem_mono m .TICKET 2 _ q st
    (fill_mem_mono m .PLANETARIUM 1 _ q st (fill_mem_mono m .GREETER 1 _ q st
      (fill_mem_mono m .TICKET 1 s q st hq))))

theorem fillPhase_offside (m : RotMeta) (s : St) :
    (fillPhase m s).asg.get .OFF_SHIFT = s.asg.get .OFF_SHIFT ∧
    (fillPhase m s).asg.get .SIDE_TASK = s.asg.get .SIDE_TASK := by
  unfold fillPhase
  dsimp only
  obtain ⟨a4, b4⟩ := fill_offside m .TICKET 1 s realStation_TICKET
  obtain ⟨a5, b5⟩ := fill_offside m .GREETER 1 _ realStation_GREETER
  obtain ⟨a6, b6⟩ := fill_offside m .PLANETARIUM 1 _ realStation_PLANETARIUM
  obtain ⟨a7, b7⟩ := fill_offside m .TICKET 2 _ realStation_TICKET
  obtain ⟨a8, b8⟩ := fill_offside m .MUSEUM _ _ realStation_MUSEUM
  rw [a8, a7, a6, a5, a4, b8, b7, b6, b5, b4]
  exact ⟨rfl, rfl⟩

theorem fillPhase_untouched (m : RotMeta) (s : St) (p : String) (hp : p ∉ s.pool) :
    (fillPhase m s).history p = s.history p ∧
    ∀ st, ((fillPhase m s).asg.get st).count p = (s.asg.get st).count p := by
  unfold fillPhase
  dsimp only
  obtain ⟨h4, o4, c4⟩ := fill_untouched m .TICKET 1 s p hp
  obtain ⟨h5, o5, c5⟩ := fill_untouched m .GREETER 1 _ p o4
  obtain ⟨h6, o6, c6⟩ := fill_untouched m .PLANETARIUM 1 _ p o5
  obtain ⟨h7, o7, c7⟩ := fill_untouched m .TICKET 2 _ p o6
  obtain ⟨h8, o8, c8⟩ := fill_untouched m .MUSEUM _ _ p o7
  refine ⟨by rw [h8, h7, h6, h5, h4], fun st => ?_⟩
  rw [c8 st, c7 st, c6 st, c5 st, c4 st]

theorem fillPhase_aroraInv (m : RotMeta) (s : St) (h : aroraInv s) :
    aroraInv (fillPhase m s) := by
  unfold fillPhase
  dsimp only
  exact fill_aroraInv m .MUSEUM _ _ (fill_aroraInv m .TICKET 2 _
    (fill_aroraInv m .PLANETARIUM 1 _ (fill_aroraInv m .GREETER 1 _
      (fill_aroraInv m .TICKET 1 s h))))

theorem fillPhase_histlen (m : RotMeta) (s : St) (p : String) (hnd : s.pool.Nodup)
    (hin : p ∈ s.pool) :
    ((fillPhase m s).history p).length = (s.history p).length + 1 := by
  have hnil := fillPhase_pool_nil m s hnd
  have hmark : histMark p (s.history p).length (fillPhase m s) := by
    unfold fillPhase
    dsimp only
    exact fill_histMark m .MUSEUM _ _ p _ (fill_histMark m .TICKET 2 _ p _
      (fill_histMark m .PLANETARIUM 1 _ p _ (fill_histMark m .GREETER 1 _ p _
        (fill_histMark m .TICKET 1 s p _ ⟨hnd, Or.inl ⟨hin, rfl⟩⟩))))
  rcases hmark.2 with ⟨hin', _⟩ | ⟨_, hlen⟩
  · rw [hnil] at hin'
    simp at hin'
  · exact hlen

theorem fillPhase_good (m : RotMeta) (s : St) (h0 : String → List GreenStation)
    (h1 : s.pool.Nodup) (h2 : poolFreshOK s) (h3 : histCountOK h0 s) :
    histCountOK h0 (fillPhase m s) ∧
    ∀ ev ∈ (fillPhase m s).trace, ev ∈ s.trace ∨
      (realStation ev.station ∧ ev.pool ≠ [] ∧
       (∀ x ∈ ev.pool, (ev.history x).count ev.station ≤ (h0 x).count ev.station) ∧
       ∃ rsv, ev.chosen = (chooseBest (scorePool ev.station ev.history ev.pool rsv).1).1) := by
  unfold fillPhase
  dsimp only
  obtain ⟨n4, f4, c4, t4⟩ := fill_good m .TICKET 1 s realStation_TICKET h0 h1 h2 h3
  obtain ⟨n5, f5, c5, t5⟩ := fill_good m .GREETER 1 _ realStation_GREETER h0 n4 f4 c4
  obtain ⟨n6, f6, c6, t6⟩ := fill_good m .PLANETARIUM 1 _ realStation_PLANETARIUM h0 n5 f5 c5
  obtain ⟨n7, f7, c7, t7⟩ := fill_good m .TICKET 2 _ realStation_TICKET h0 n6 f6 c6
  obtain ⟨n8, f8, c8, t8⟩ := fill_good m .MUSEUM _ _ realStation_MUSEUM h0 n7 f7 c7
  refine ⟨c8, fun ev hev => ?_⟩
  rcases t8 ev hev with hev | ⟨hst, hrest⟩
  · rcases t7 ev hev with hev | ⟨hst, hrest⟩
    · rcases t6 ev hev with hev | ⟨hst, hrest⟩
      · rcases t5 ev hev with hev | ⟨hst, hrest⟩
        · rcases t4 ev hev with hev | ⟨hst, hrest⟩
          · exact Or.inl hev
          · exact Or.inr ⟨hst ▸ realStation_TICKET, hrest⟩
        · exact Or.inr ⟨hst ▸ realStation_GREETER, hrest⟩
      · exact Or.inr ⟨hst ▸ realStation_PLANETARIUM, hrest⟩
    · exact Or.inr ⟨hst ▸ realStation_TICKET, hrest⟩
  · exact Or.inr ⟨hst ▸ realStation_MUSEUM, hrest⟩

theorem processRotation_occ (inp : Inputs) (m : RotMeta) (s0 : St)
    (hpair : (inp.forcedAssignments.filter (fun f => f.rotationId == m.id)).Pairwise
      (fun f g => f.employeeId ≠ g.employeeId))
    (p : String) (hp : p ∈ mkEmployees inp.numEmployees) :
    occCount p (processRotation inp m s0).2.assignments = 1 := by
  rw [processRotation_eq]
  dsimp only
  rw [fillPhase_occ m _ (postShuffle_nodup inp m s0) p]
  rw [postShuffle_asg, postShuffle_pool_count]
  exact postForce_occ inp m s0 p hpair hp

theorem processRotation_forced (inp : Inputs) (m : RotMeta) (s0 : St)
    (f : ForcedAssignment) (hf : f ∈ inp.forcedAssignments) (hid : f.rotationId = m.id)
    (hst : realStation f.station) :
    f.employeeId ∈ (processRotation inp m s0).2.assignments.get f.station := by
  rw [processRotation_eq]
  dsimp only
  apply fillPhase_mem_mono
  rw [postShuffle_asg]
  exact postForce_mem_real inp m s0 f hf hid hst

theorem processRotation_realcount (inp : Inputs) (m : RotMeta) (s0 : St)
    (p : String) (st : GreenStation) (hst : realStation st) :
    ((processRotation inp m s0).1.history p).count st ≤ (s0.history p).count st + 1 := by
  rw [processRotation_eq]
  dsimp only
  have hck := (fillPhase_good m (postShuffle inp m s0) (postCat inp m s0).history
    (postShuffle_nodup inp m s0) (postShuffle_fresh inp m s0)
    (postShuffle_histCountOK inp m s0)).1 p st hst
  rw [postCat_hist_count_real inp m s0 p hst] at hck
  split at hck <;> omega

theorem processRotation_trace (inp : Inputs) (m : RotMeta) (s0 : St) :
    ∀ ev ∈ (processRotation inp m s0).1.trace, ev ∈ s0.trace ∨
      (realStation ev.station ∧ ev.pool ≠ [] ∧
       (∀ x ∈ ev.pool, (ev.history x).count ev.station ≤ (s0.history x).count ev.station) ∧
       ∃ rsv, ev.chosen = (chooseBest (scorePool ev.station ev.history ev.pool rsv).1).1) := by
  rw [processRotation_eq]
  dsimp only
  intro ev hev
  have hbase : (postShuffle inp m s0).trace = s0.trace := by
    rw [postShuffle_trace, postForce_trace]
  rcases (fillPhase_good m (postShuffle inp m s0) (postCat inp m s0).history
      (postShuffle_nodup inp m s0) (postShuffle_fresh inp m s0)
      (postShuffle_histCountOK inp m s0)).2 ev hev with hin | ⟨hst, hne, hbound, hch⟩
  · rw [hbase] at hin
    exact Or.inl hin
  · refine Or.inr ⟨hst, hne, fun x hx => ?_, hch⟩
    have := hbound x hx
    rwa [postCat_hist_count_real inp m s0 x hst] at this

theorem processRotation_aroraInv (inp : Inputs) (m : RotMeta) (s0 : St)
    (h : aroraInv s0) : aroraInv (processRotation inp m s0).1 := by
  rw [processRotation_eq]
  dsimp only
  exact fillPhase_aroraInv m _ (postShuffle_aroraInv inp m s0 h)

theorem postForce_nil (inp : Inputs) (m : RotMeta) (s0 : St)
    (hnil : inp.forcedAssignments.filter (fun f => f.rotationId == m.id) = []) :
    postForce inp m s0 = postCat inp m s0 := by
  unfold postForce
  rw [hnil]
  rfl

theorem processRotation_hist (inp : Inputs) (m : RotMeta) (s0 : St)
    (hnil : inp.forcedAssignments.filter (fun f => f.rotationId == m.id) = [])
    (p : String) (hp : p ∈ mkEmployees inp.numEmployees) :
    ((processRotation inp m s0).1.history p).length = (s0.history p).length
      + (if isPresent inp.shiftExceptions m p then 1 else 0) := by
  rw [processRotation_eq]
  dsimp only
  have hpool : (postCat inp m s0).pool
      = (mkEmployees inp.numEmployees).filter (toPool inp m) := postCat_pool inp m s0
  have hc1 : (mkEmployees inp.numEmployees).count p = 1 :=
    List.count_eq_one_of_mem (mkEmployees_nodup inp.numEmployees) hp
  have hhl : ((postCat inp m s0).history p).length = (s0.history p).length
      + (if toSide inp m p then 1 else 0) := by
    rw [postCat_hist]
    rw [List.length_append, List.length_replicate, count_filter_pred, hc1]
  by_cases hP : toPool inp m p = true
  · have hin3 : p ∈ (postShuffle inp m s0).pool := by
      rw [postShuffle_mem, postForce_nil inp m s0 hnil, hpool, List.mem_filter]
      exact ⟨hp, hP⟩
    rw [fillPhase_histlen m _ p (postShuffle_nodup inp m s0) hin3]
    rw [postShuffle_history, postForce_nil inp m s0 hnil, hhl]
    have hside : toSide inp m p = false := by
      unfold toPool at hP
      unfold toSide
      rcases Bool.and_eq_true_iff.mp hP with ⟨h1, h2⟩
      rw [h1]
      simp only [Bool.true_and]
      rw [Option.isNone_iff_eq_none] at h2
      rw [h2]
      rfl
    have hpres : isPresent inp.shiftExceptions m p = true := by
      unfold toPool at hP
      exact (Bool.and_eq_true_iff.mp hP).1
    rw [hside, hpres]
    simp
  · have hout3 : p ∉ (postShuffle inp m s0).pool := by
      rw [postShuffle_mem, postForce_nil inp m s0 hnil, hpool, List.mem_filter]
      intro hcon
      exact hP hcon.2
    obtain ⟨heq, _⟩ := fillPhase_untouched m _ p hout3
    rw [heq, postShuffle_history, postForce_nil inp m s0 hnil, hhl]
    by_cases hpres : isPresent inp.shiftExceptions m p = true
    · have hside : toSide inp m p = true := by
        unfold toSide
        unfold toPool at hP
        rw [hpres] at hP ⊢
        simp only [Bool.true_and] at hP ⊢
        cases hso : inp.sideTasks.find? (fun t => t.rotationId == m.id && t.employeeId == p)
        · exact absurd (by rw [hso]; rfl) hP
        · rfl
      rw [hside, hpres]
    · have hpres' : isPresent inp.shiftExceptions m p = false := by
        cases h : isPresent inp.shiftExceptions m p
        · rfl
        · exact absurd h hpres
      have hside : toSide inp m p = false := by
        unfold toSide
        rw [hpres']
        rfl
      rw [hside, hpres']

theorem runRotations_cons (inp : Inputs) (m : RotMeta) (ms : List RotMeta) (s : St) :
    runRotations inp (m :: ms) s =
      ((runRotations inp ms (processRotation inp m s).1).1,
       (processRotation inp m s).2 :: (runRotations inp ms (processRotation inp m s).1).2)
    := rfl

theorem processRotation_id (inp : Inputs) (m : RotMeta) (s : St) :
    (processRotation inp m s).2.id = m.id := by
  rw [processRotation_eq]

theorem processRotation_timeRange (inp : Inputs) (m : RotMeta) (s : St) :
    (processRotation inp m s).2.timeRange = m.start ++ " - " ++ m.stop := by
  rw [processRotation_eq]

theorem runRotations_occ (inp : Inputs)
    (hpair : inp.forcedAssignments.Pairwise
      (fun f g => f.rotationId = g.rotationId → f.employeeId ≠ g.employeeId)) :
    ∀ (ms : List RotMeta) (s : St), ∀ rot ∈ (runRotations inp ms s).2,
    ∀ p ∈ mkEmployees inp.numEmployees, occCount p rot.assignments = 1 := by
  intro ms
  induction ms with
  | nil =>
      intro s rot hrot
      simp [runRotations] at hrot
  | cons m ms ih =>
      intro s rot hrot p hp
      rw [runRotations_cons] at hrot
      have hfiltered : (inp.forcedAssignments.filter (fun f => f.rotationId == m.id)).Pairwise
          (fun f g => f.employeeId ≠ g.employeeId) := by
        have h1 := List.Pairwise.filter (fun f => f.rotationId == m.id) hpair
        refine List.Pairwise.imp_of_mem ?_ h1
        intro a b ha hb hr
        have ha' : a.rotationId = m.id := by
          have := (List.mem_filter.mp ha).2
          simpa using this
        have hb' : b.rotationId = m.id := by
          have := (List.mem_filter.mp hb).2
          simpa using this
        exact hr (ha'.trans hb'.symm)
      rcases List.mem_cons.mp hrot with heq | hmem
      · subst heq
        exact processRotation_occ inp m s hfiltered p hp
      · exact ih _ rot hmem p hp

theorem runRotations_forced (inp : Inputs) (f : ForcedAssignment)
    (hf : f ∈ inp.forcedAssignments) (hst : realStation f.station) :
    ∀ (ms : List RotMeta) (s : St), ∀ rot ∈ (runRotations inp ms s).2,
    rot.id = f.rotationId → f.employeeId ∈ rot.assignments.get f.station := by
  intro ms
  induction ms with
  | nil =>
      intro s rot hrot
      simp [runRotations] at hrot
  | cons m ms ih =>
      intro s rot hrot hid
      rw [runRotations_cons] at hrot
      rcases List.mem_cons.mp hrot with heq | hmem
      · subst heq
        rw [processRotation_id] at hid
        exact processRotation_forced inp m s f hf hid.symm hst
      · exact ih _ rot hmem hid

theorem runRotations_hist (inp : Inputs) (hfa : inp.forcedAssignments = [])
    (p : String) (hp : p ∈ mkEmployees inp.numEmployees) :
    ∀ (ms : List RotMeta) (s : St),
    ((runRotations inp ms s).1.history p).length = (s.history p).length
      + (ms.filter (fun m => isPresent inp.shiftExceptions m p)).length := by
  intro ms
  induction ms with
  | nil =>
      intro s
      simp [runRotations]
  | cons m ms ih =>
      intro s
      rw [runRotations_cons]
      dsimp only
      rw [ih]
      rw [processRotation_hist inp m s (by rw [hfa]; rfl) p hp]
      by_cases hpres : isPresent inp.shiftExceptions m p = true
      · rw [List.filter_cons_of_pos (by simpa using hpres), if_pos hpres]
        simp only [List.length_cons]
        omega
      · have hpres' : isPresent inp.shiftExceptions m p = false := by
          cases h : isPresent inp.shiftExceptions m p
          · rfl
          · exact absurd h hpres
        rw [List.filter_cons_of_neg (by simpa using hpres'), if_neg (by simpa using hpres')]
        omega

/-- An automatic fill step the full engine can reach: a nonempty candidate
pool whose members' station counts are within the day bound, and a chosen
candidate produced by the scorer on exactly that pool, history and some
random stream. -/
def goodEv (ev : FillEvent) : Prop :=
  ev.pool ≠ [] ∧ (∀ x ∈ ev.pool, (ev.history x).count ev.station ≤ 5) ∧
  ∃ rsv, ev.chosen = (chooseBest (scorePool ev.station ev.history ev.pool rsv).1).1

theorem runRotations_trace (inp : Inputs) :
    ∀ (ms : List RotMeta) (s : St) (c : Nat),
    (∀ p st, realStation st → ((s.history p).count st ≤ c)) → c + ms.length ≤ 5 →
    ∀ ev ∈ (runRotations inp ms s).1.trace, ev ∈ s.trace ∨ goodEv ev := by
  intro ms
  induction ms with
  | nil =>
      intro s c _ _ ev hev
      exact Or.inl hev
  | cons m ms ih =>
      intro s c hbound hlen ev hev
      rw [runRotations_cons] at hev
      dsimp only at hev
      have hbound' : ∀ p st, realStation st →
          (((processRotation inp m s).1.history p).count st ≤ c + 1) := by
        intro p st hst
        have h1 := processRotation_realcount inp m s p st hst
        have h2 := hbound p st hst
        omega
      have hlen' : (c + 1) + ms.length ≤ 5 := by
        simp only [List.length_cons] at hlen
        omega
      rcases ih _ (c + 1) hbound' hlen' ev hev with hin | hgood
      · rcases processRotation_trace inp m s ev hin with hin0 | ⟨hst, hne, hx, hch⟩
        · exact Or.inl hin0
        · refine Or.inr ⟨hne, fun x hxm => ?_, hch⟩
          have h1 := hx x hxm
          have h2 := hbound x ev.station hst
          simp only [List.length_cons] at hlen
          omega
      · exact Or.inr hgood

theorem runRotations_aroraInv (inp : Inputs) :
    ∀ (ms : List RotMeta) (s : St), aroraInv s → aroraInv (runRotations inp ms s).1 := by
  intro ms
  induction ms with
  | nil =>
      intro s h
      exact h
  | cons m ms ih =>
      intro s h
      rw [runRotations_cons]
      exact ih _ (processRotation_aroraInv inp m s h)

theorem runRotations_idTime (inp : Inputs) :
    ∀ (ms : List RotMeta) (s : St),
    ((runRotations inp ms s).2).map (fun r => (r.id, r.timeRange))
      = ms.map (fun m => (m.id, m.start ++ " - " ++ m.stop)) := by
  intro ms
  induction ms with
  | nil =>
      intro s
      rfl
  | cons m ms ih =>
      intro s
      rw [runRotations_cons]
      dsimp only
      rw [List.map_cons, ih, List.map_cons]
      rw [processRotation_id, processRotation_timeRange]

theorem occ_unique (p : String) (a : Assignments) {st st' : GreenStation}
    (hocc : occCount p a = 1) (hmem : p ∈ a.get st) (hne : st' ≠ st) :
    p ∉ a.get st' := by
  intro hmem'
  have h1 : 0 < (a.get st).count p := List.count_pos_iff.mpr hmem
  have h2 : 0 < (a.get st').count p := List.count_pos_iff.mpr hmem'
  unfold occCount at hocc
  cases st <;> cases st' <;> first
    | exact hne rfl
    | (simp only [Assignments.get] at h1 h2; omega)

/-- The four shortage criticals a rotation emits when nobody is available. -/
def perRotMissing (m : RotMeta) : List GreenNotification :=
  [missingNotif m .TICKET 1 0 0, missingNotif m .GREETER 1 0 0,
   missingNotif m .PLANETARIUM 1 0 0, missingNotif m .TICKET 2 0 0]

theorem processRotation_noroster (m : RotMeta) (s0 : St) :
    processRotation ⟨0, [], [], []⟩ m s0 =
      ({ s0 with asg := Assignments.empty, pool := [], notifs := s0.notifs ++ perRotMissing m },
       ⟨m.id, m.start ++ " - " ++ m.stop, Assignments.empty⟩) := by
  rw [processRotation_eq]
  have h1 : postCat ⟨0, [], [], []⟩ m s0 = { s0 with asg := Assignments.empty, pool := [] } := by
    unfold postCat
    rfl
  have h2 : postShuffle ⟨0, [], [], []⟩ m s0 = { s0 with asg := Assignments.empty, pool := [] } := by
    unfold postShuffle
    rw [postForce_nil ⟨0, [], [], []⟩ m s0 rfl, h1]
    rfl
  have h3 : fillPhase m { s0 with asg := Assignments.empty, pool := [] }
      = { s0 with asg := Assignments.empty, pool := [], notifs := s0.notifs ++ perRotMissing m } := by
    unfold fillPhase
    dsimp only
    have f1 : assignBestCandidates m .TICKET 1 { s0 with asg := Assignments.empty, pool := [] }
        = { s0 with asg := Assignments.empty, pool := [], notifs := s0.notifs ++ [missingNotif m .TICKET 1 0 0] } := by
      unfold assignBestCandidates
      rfl
    rw [f1]
    have f2 : assignBestCandidates m .GREETER 1 { s0 with asg := Assignments.empty, pool := [], notifs := s0.notifs ++ [missingNotif m .TICKET 1 0 0] }
        = { s0 with asg := Assignments.empty, pool := [], notifs := (s0.notifs ++ [missingNotif m .TICKET 1 0 0]) ++ [missingNotif m .GREETER 1 0 0] } := by
      unfold assignBestCandidates
      rfl
    rw [f2]
    have f3 : assignBestCandidates m .PLANETARIUM 1 { s0 with asg := Assignments.empty, pool := [], notifs := (s0.notifs ++ [missingNotif m .TICKET 1 0 0]) ++ [missingNotif m .GREETER 1 0 0] }
        = { s0 with asg := Assignments.empty, pool := [], notifs := ((s0.notifs ++ [missingNotif m .TICKET 1 0 0]) ++ [missingNotif m .GREETER 1 0 0]) ++ [missingNotif m .PLANETARIUM 1 0 0] } := by
      unfold assignBestCandidates
      rfl
    rw [f3]
    have f4 : assignBestCandidates m .TICKET 2 { s0 with asg := Assignments.empty, pool := [], notifs := ((s0.notifs ++ [missingNotif m .TICKET 1 0 0]) ++ [missingNotif m .GREETER 1 0 0]) ++ [missingNotif m .PLANETARIUM 1 0 0] }
        = { s0 with asg := Assignments.empty, pool := [], notifs := (((s0.notifs ++ [missingNotif m .TICKET 1 0 0]) ++ [missingNotif m .GREETER 1 0 0]) ++ [missingNotif m .PLANETARIUM 1 0 0]) ++ [missingNotif m .TICKET 2 0 0] } := by
      unfold assignBestCandidates
      rfl
    rw [f4]
    have f5 : assignBestCandidates m .MUSEUM ((({ s0 with asg := Assignments.empty, pool := [], notifs := (((s0.notifs ++ [missingNotif m .TICKET 1 0 0]) ++ [missingNotif m .GREETER 1 0 0]) ++ [missingNotif m .PLANETARIUM 1 0 0]) ++ [missingNotif m .TICKET 2 0 0] } : St).asg.get .MUSEUM).length + ({ s0 with asg := Assignments.empty, pool := [], notifs := (((s0.notifs ++ [missingNotif m .TICKET 1 0 0]) ++ [missingNotif m .GREETER 1 0 0]) ++ [missingNotif m .PLANETARIUM 1 0 0]) ++ [missingNotif m .TICKET 2 0 0] } : St).pool.length) { s0 with asg := Assignments.empty, pool := [], notifs := (((s0.notifs ++ [missingNotif m .TICKET 1 0 0]) ++ [missingNotif m .GREETER 1 0 0]) ++ [missingNotif m .PLANETARIUM 1 0 0]) ++ [missingNotif m .TICKET 2 0 0] }
        = { s0 with asg := Assignments.empty, pool := [], notifs := (((s0.notifs ++ [missingNotif m .TICKET 1 0 0]) ++ [missingNotif m .GREETER 1 0 0]) ++ [missingNotif m .PLANETARIUM 1 0 0]) ++ [missingNotif m .TICKET 2 0 0] } := by
      unfold assignBestCandidates
      rfl
    rw [f5]
    unfold perRotMissing
    congr 1
    simp [List.append_assoc]
  rw [h2, h3]

/-! ### The claims -/

set_option maxRecDepth 1000000
set_option maxHeartbeats 8000000

/-- C1 (corrected): when no two forced assignments pin the same person in
the same rotation (the same person pinned in different rotations remains
allowed), every roster member appears in exactly one of the six buckets of
every output rotation — no omissions and no duplicates.  (Without that
hypothesis the invariant fails: two pins of the same person to different
stations in one rotation place the person in two buckets, see the
counterexample.) -/
theorem claim_C1 (n : Nat) (sideTasks : List SideTaskRule)
    (shiftExceptions : List ShiftException) (fa : List ForcedAssignment)
    (rs : RandomStream)
    (hpair : fa.Pairwise (fun f g => f.rotationId = g.rotationId →
      f.employeeId ≠ g.employeeId)) :
    ∀ rot ∈ (generateGreenSchedule n sideTasks shiftExceptions fa rs).rotations,
    ∀ p ∈ mkEmployees n, occCount p rot.assignments = 1 := by
  intro rot hrot p hp
  unfold generateGreenSchedule generateGreenScheduleFull at hrot
  dsimp only at hrot
  exact runRotations_occ ⟨n, sideTasks, shiftExceptions, fa⟩ hpair ROTATIONS_META _ rot hrot p hp

/-- C1 counterexample: with a duplicated forced person (B1 pinned to Ticket
and to Greeter in rotation 1), B1 occupies two buckets of rotation 1. -/
theorem claim_C1_cex :
    occCount "B1" (((generateGreenSchedule 1 [] []
      [⟨1, .TICKET, "B1"⟩, ⟨1, .GREETER, "B1"⟩] rs0).rotations).headD default).assignments
      = 2 := by
  decide

/-- C1 witness: a concrete roster-of-one run in which B1 sits in exactly one
bucket of rotation 1. -/
theorem claim_C1_witness :
    occCount "B1" (((generateGreenSchedule 1 [] [] [] rs0).rotations).headD default).assignments
      = 1 := by
  exact claim_C1 1 [] [] [] rs0 (by simp) _
    (of_decide_eq_true (by with_unfolding_all rfl)) "B1" (by decide)

/-- C2 (corrected): the engine does NOT ignore a pin whose person is
OffShift — it applies it: the pinned person lands in the pinned station
bucket and leaves the OffShift bucket (the spec says the pin is ignored). -/
theorem claim_C2 (n : Nat) (sideTasks : List SideTaskRule)
    (shiftExceptions : List ShiftException) (fa : List ForcedAssignment)
    (rs : RandomStream) (f : ForcedAssignment)
    (hpair : fa.Pairwise (fun f g => f.employeeId ≠ g.employeeId))
    (hf : f ∈ fa) (hmem : f.employeeId ∈ mkEmployees n) (hst : realStation f.station)
    (_hoff : ∃ m ∈ ROTATIONS_META, m.id = f.rotationId ∧
      isPresent shiftExceptions m f.employeeId = false) :
    ∀ rot ∈ (generateGreenSchedule n sideTasks shiftExceptions fa rs).rotations,
    rot.id = f.rotationId →
      f.employeeId ∈ rot.assignments.get f.station ∧
      f.employeeId ∉ rot.assignments.get GreenStation.OFF_SHIFT := by
  intro rot hrot hid
  unfold generateGreenSchedule generateGreenScheduleFull at hrot
  dsimp only at hrot
  have hforced := runRotations_forced ⟨n, sideTasks, shiftExceptions, fa⟩ f hf hst
    ROTATIONS_META _ rot hrot hid
  have hpair' : fa.Pairwise (fun f g => f.rotationId = g.rotationId →
      f.employeeId ≠ g.employeeId) := by
    refine List.Pairwise.imp ?_ hpair
    intro a b h _
    exact h
  have hocc := runRotations_occ ⟨n, sideTasks, shiftExceptions, fa⟩ hpair'
    ROTATIONS_META _ rot hrot f.employeeId hmem
  exact ⟨hforced, occ_unique _ _ hocc hforced (fun h => hst.2 h.symm)⟩

/-- C2 counterexample: B1 is off-shift all day (17:00-18:00 exception) yet
the rotation-1 pin to Ticket places B1 in the Ticket bucket. -/
theorem claim_C2_cex :
    "B1" ∈ (((generateGreenSchedule 1 [] [⟨"x", "B1", "17:00", "18:00"⟩]
      [⟨1, .TICKET, "B1"⟩] rs0).rotations).headD default).assignments.get .TICKET := by
  decide

/-- C2 witness: the same concrete run through the amended theorem. -/
theorem claim_C2_witness :
    "B1" ∈ (((generateGreenSchedule 1 [] [⟨"x", "B1", "17:00", "18:00"⟩]
      [⟨1, .TICKET, "B1"⟩] rs0).rotations).headD default).assignments.get .TICKET ∧
    "B1" ∉ (((generateGreenSchedule 1 [] [⟨"x", "B1", "17:00", "18:00"⟩]
      [⟨1, .TICKET, "B1"⟩] rs0).rotations).headD default).assignments.get .OFF_SHIFT := by
  exact claim_C2 1 [] [⟨"x", "B1", "17:00", "18:00"⟩] [⟨1, .TICKET, "B1"⟩] rs0
    ⟨1, .TICKET, "B1"⟩ (by simp) (by simp) (by decide) (by decide)
    ⟨⟨1, "09:00", "10:30"⟩, by decide, by decide, by decide⟩
    _ (by decide) (by decide)

/-- C3 (corrected): on every automatic fill step the engine reaches, the
scorer never selects a candidate whose immediately preceding history entry
equals the station being filled while the pool still holds a candidate
whose preceding entry differs.  (The spec's stronger form — while ANY other
candidate exists — fails when every pool member is a repeat, see the
counterexample.) -/
theorem claim_C3 (n : Nat) (sideTasks : List SideTaskRule)
    (shiftExceptions : List ShiftException) (fa : List ForcedAssignment)
    (rs : RandomStream) (ev : FillEvent)
    (hev : ev ∈ (generateGreenScheduleFull n sideTasks shiftExceptions fa rs).1.trace)
    (x : String) (hx : x ∈ ev.pool)
    (hxnr : (ev.history x).getLast? ≠ some ev.station) :
    (ev.history ev.chosen).getLast? ≠ some ev.station := by
  unfold generateGreenScheduleFull at hev
  have hgood := runRotations_trace ⟨n, sideTasks, shiftExceptions, fa⟩ ROTATIONS_META _ 0
    (fun p st _ => by simp) (by decide) ev hev
  rcases hgood with hin | ⟨hne, hbound, rsv, hch⟩
  · simp at hin
  · rw [hch]
    exact chosen_no_repeat ev.station ev.history ev.pool rsv x hx hxnr (hbound x hx)

/-- C3 counterexample: with both roster members pinned to Ticket in rotation
1, rotation 2's Ticket fill selects a back-to-back repeat even though
another candidate is still in the pool. -/
theorem claim_C3_cex :
    ∃ ev ∈ (generateGreenScheduleFull 2 [] []
        [⟨1, .TICKET, "B1"⟩, ⟨1, .TICKET, "B2"⟩] rs0).1.trace,
      (ev.history ev.chosen).getLast? = some ev.station ∧ ∃ x ∈ ev.pool, x ≠ ev.chosen := by
  exact of_decide_eq_true (by with_unfolding_all rfl)

/-- C3 witness: the first fill event of a fresh roster-of-one run, whose
candidate has an empty history, is not chosen as a repeat. -/
theorem claim_C3_witness :
    (((generateGreenScheduleFull 1 [] [] [] rs0).1.trace.headD
        ⟨0, .TICKET, [], fun _ => [], ""⟩).history
      ((generateGreenScheduleFull 1 [] [] [] rs0).1.trace.headD
        ⟨0, .TICKET, [], fun _ => [], ""⟩).chosen).getLast?
      ≠ some ((generateGreenScheduleFull 1 [] [] [] rs0).1.trace.headD
        ⟨0, .TICKET, [], fun _ => [], ""⟩).station := by
  have hne : (generateGreenScheduleFull 1 [] [] [] rs0).1.trace ≠ [] := by
    intro h
    have hlen : (generateGreenScheduleFull 1 [] [] [] rs0).1.trace.length = 5 := by
      with_unfolding_all rfl
    rw [h] at hlen
    simp at hlen
  exact claim_C3 1 [] [] [] rs0 _
    (headD_mem_of_ne_nil _ ⟨0, .TICKET, [], fun _ => [], ""⟩ hne) "B1"
    (of_decide_eq_true (by with_unfolding_all rfl))
    (of_decide_eq_true (by with_unfolding_all rfl))

/-- C4 (corrected): every person holds at most one Planetarium entry in the
full-day history OR a warning/critical "arora" notification names them.
(The spec's claim that only a ForcedAssignment can cause the second
Planetarium is false: the automatic Planetarium-slot fill also assigns it
when every pooled candidate has already done Planetarium — the scarce
penalty then only orders the candidates, it cannot veto them — see the
counterexample; but the accompanying warning/critical notification is
always emitted.) -/
theorem claim_C4 (n : Nat) (sideTasks : List SideTaskRule)
    (shiftExceptions : List ShiftException) (fa : List ForcedAssignment)
    (rs : RandomStream) (p : String) :
    ((generateGreenScheduleFull n sideTasks shiftExceptions fa rs).1.history p).count
        GreenStation.PLANETARIUM ≤ 1 ∨
      aroraFlagged (generateGreenSchedule n sideTasks shiftExceptions fa rs).notifications p := by
  unfold generateGreenSchedule generateGreenScheduleFull
  dsimp only
  have h := runRotations_aroraInv ⟨n, sideTasks, shiftExceptions, fa⟩ ROTATIONS_META
    { asg := Assignments.empty, pool := [], history := fun _ => [],
      notifs := preNotifs shiftExceptions, rs := rs, trace := [] }
    (fun q => Or.inl (by simp))
  exact h p

/-- C4 counterexample: with three employees and no forced assignments at
all, B1 is assigned Planetarium twice across the day. -/
theorem claim_C4_cex :
    ((generateGreenScheduleFull 3 [] [] [] rs0).1.history "B1").count
      GreenStation.PLANETARIUM = 2 := by
  exact of_decide_eq_true (by with_unfolding_all rfl)

/-- C5 (corrected): with no forced assignments, a roster member's full-day
history length equals the number of rotations for which the member is
present — one entry per present rotation, and none for OffShift rotations
(the spec claims one entry per rotation for EVERY person, see the
counterexample). -/
theorem claim_C5 (n : Nat) (sideTasks : List SideTaskRule)
    (shiftExceptions : List ShiftException) (rs : RandomStream)
    (p : String) (hp : p ∈ mkEmployees n) :
    ((generateGreenScheduleFull n sideTasks shiftExceptions [] rs).1.history p).length
      = (ROTATIONS_META.filter (fun m => isPresent shiftExceptions m p)).length := by
  unfold generateGreenScheduleFull
  rw [runRotations_hist ⟨n, sideTasks, shiftExceptions, []⟩ rfl p hp ROTATIONS_META _]
  simp

/-- C5 counterexample: a person off-shift all day ends the day with an empty
history — length 0 after five rotations, not 5. -/
theorem claim_C5_cex :
    ((generateGreenScheduleFull 1 [] [⟨"x", "B1", "17:00", "18:00"⟩] [] rs0).1.history
      "B1").length = 0 := by
  decide

/-- C5 witness: a fully present person accumulates one entry per rotation. -/
theorem claim_C5_witness :
    ((generateGreenScheduleFull 2 [] [] [] rs0).1.history "B2").length
      = (ROTATIONS_META.filter (fun m => isPresent [] m "B2")).length :=
  claim_C5 2 [] [] rs0 "B2" (by decide)

/-- C6 (confirmed): the engine is a pure function of its inputs and the
random stream — identical streams give identical output — and a forced
placement (the pinned person's membership in the pinned station of the
matching rotation) holds in every run, whatever the stream. -/
theorem claim_C6 (n : Nat) (sideTasks : List SideTaskRule)
    (shiftExceptions : List ShiftException) (fa : List ForcedAssignment)
    (rs rs' : RandomStream) (f : ForcedAssignment)
    (hf : f ∈ fa) (hst : realStation f.station) :
    (rs = rs' → generateGreenSchedule n sideTasks shiftExceptions fa rs
        = generateGreenSchedule n sideTasks shiftExceptions fa rs') ∧
    (∀ rot ∈ (generateGreenSchedule n sideTasks shiftExceptions fa rs).rotations,
     ∀ rot' ∈ (generateGreenSchedule n sideTasks shiftExceptions fa rs').rotations,
     rot.id = f.rotationId → rot'.id = f.rotationId →
       (f.employeeId ∈ rot.assignments.get f.station ↔
        f.employeeId ∈ rot'.assignments.get f.station)) := by
  constructor
  · intro h
    rw [h]
  · intro rot hrot rot' hrot' hid hid'
    unfold generateGreenSchedule generateGreenScheduleFull at hrot hrot'
    dsimp only at hrot hrot'
    have h1 := runRotations_forced ⟨n, sideTasks, shiftExceptions, fa⟩ f hf hst
      ROTATIONS_META _ rot hrot hid
    have h2 := runRotations_forced ⟨n, sideTasks, shiftExceptions, fa⟩ f hf hst
      ROTATIONS_META _ rot' hrot' hid'
    exact iff_of_true h1 h2

/-- C6 witness: two concrete runs differing only in the random stream keep
the pinned placement of B1 to Ticket in rotation 1. -/
theorem claim_C6_witness :
    (rs0 = rsHalf → generateGreenSchedule 1 [] [] [⟨1, .TICKET, "B1"⟩] rs0
        = generateGreenSchedule 1 [] [] [⟨1, .TICKET, "B1"⟩] rsHalf) ∧
    (∀ rot ∈ (generateGreenSchedule 1 [] [] [⟨1, .TICKET, "B1"⟩] rs0).rotations,
     ∀ rot' ∈ (generateGreenSchedule 1 [] [] [⟨1, .TICKET, "B1"⟩] rsHalf).rotations,
     rot.id = 1 → rot'.id = 1 →
       ("B1" ∈ rot.assignments.get .TICKET ↔ "B1" ∈ rot'.assignments.get .TICKET)) :=
  claim_C6 1 [] [] [⟨1, .TICKET, "B1"⟩] rs0 rsHalf ⟨1, .TICKET, "B1"⟩ (by simp) (by decide)

/-- C7 (corrected): an empty roster still yields a full schedule with every
bucket of every rotation empty, but the notification list is NOT empty as
the spec claims: the engine emits 20 shortage criticals (four per
rotation). -/
theorem claim_C7 (rs : RandomStream) :
    (∀ rot ∈ (generateGreenSchedule 0 [] [] [] rs).rotations,
      ∀ st, rot.assignments.get st = []) ∧
    (generateGreenSchedule 0 [] [] [] rs).notifications.length = 20 ∧
    ∀ nt ∈ (generateGreenSchedule 0 [] [] [] rs).notifications,
      nt.type = NotifType.critical := by
  have hm : ROTATIONS_META = ⟨1, "09:00", "10:30"⟩ :: ⟨2, "10:30", "12:00"⟩ ::
      ⟨3, "12:00", "14:00"⟩ :: ⟨4, "14:00", "15:30"⟩ :: ⟨5, "15:30", "17:00"⟩ :: [] := rfl
  unfold generateGreenSchedule generateGreenScheduleFull
  dsimp only
  rw [hm]
  rw [runRotations_cons, processRotation_noroster]
  dsimp only
  rw [runRotations_cons, processRotation_noroster]
  dsimp only
  rw [runRotations_cons, processRotation_noroster]
  dsimp only
  rw [runRotations_cons, processRotation_noroster]
  dsimp only
  rw [runRotations_cons, processRotation_noroster]
  dsimp only
  refine ⟨?_, ?_, ?_⟩
  · intro rot hrot st
    simp only [runRotations, List.mem_cons] at hrot
    rcases hrot with h|h|h|h|h|h
    all_goals first
      | (subst h; cases st <;> rfl)
      | (simp at h)
  · simp only [runRotations]
    decide
  · simp only [runRotations]
    decide

/-- C7 counterexample: the empty-roster run does not return an empty
notification list. -/
theorem claim_C7_cex :
    (generateGreenSchedule 0 [] [] [] rs0).notifications.length ≠ 0 := by
  decide

/-- C8 (corrected): the presence test is exactly the no-overlap
characterization the spec gives; but the spec's scenario is impossible: a
shift exception that puts B1 off in rotation 3 necessarily puts B1 off in
rotations 1 and 2 (window after 14:00) or in rotations 4 and 5 (window
before 12:00), never off in rotation 3 alone. -/
theorem claim_C8 (ex : ShiftException) (hid : ex.employeeId = "B1") :
    (∀ m ∈ ROTATIONS_META, (isPresent [ex] m "B1" = false ↔
      (getMinutes ex.endTime ≤ getMinutes m.start ∨
       getMinutes ex.startTime ≥ getMinutes m.stop))) ∧
    (isPresent [ex] (ROTATIONS_META.getD 2 ⟨0, "", ""⟩) "B1" = false →
      ((isPresent [ex] (ROTATIONS_META.getD 0 ⟨0, "", ""⟩) "B1" = false ∧
        isPresent [ex] (ROTATIONS_META.getD 1 ⟨0, "", ""⟩) "B1" = false) ∨
       (isPresent [ex] (ROTATIONS_META.getD 3 ⟨0, "", ""⟩) "B1" = false ∧
        isPresent [ex] (ROTATIONS_META.getD 4 ⟨0, "", ""⟩) "B1" = false))) := by
  have hfind : ([ex].find? (fun e => e.employeeId == "B1")) = some ex := by
    rw [List.find?_cons_of_pos]
    simp [hid]
  have hiff : ∀ (m : RotMeta), (isPresent [ex] m "B1" = false ↔
      (getMinutes ex.endTime ≤ getMinutes m.start ∨
       getMinutes ex.startTime ≥ getMinutes m.stop)) := by
    intro m
    unfold isPresent
    rw [hfind]
    dsimp only
    simp
    omega
  refine ⟨fun m _ => hiff m, fun h3 => ?_⟩
  rw [hiff] at h3
  rw [hiff, hiff, hiff, hiff]
  have e1 : getMinutes (ROTATIONS_META.getD 2 ⟨0, "", ""⟩).start = 720 := rfl
  have e2 : getMinutes (ROTATIONS_META.getD 2 ⟨0, "", ""⟩).stop = 840 := rfl
  have e3 : getMinutes (ROTATIONS_META.getD 0 ⟨0, "", ""⟩).start = 540 := rfl
  have e4 : getMinutes (ROTATIONS_META.getD 0 ⟨0, "", ""⟩).stop = 630 := rfl
  have e5 : getMinutes (ROTATIONS_META.getD 1 ⟨0, "", ""⟩).start = 630 := rfl
  have e6 : getMinutes (ROTATIONS_META.getD 1 ⟨0, "", ""⟩).stop = 720 := rfl
  have e7 : getMinutes (ROTATIONS_META.getD 3 ⟨0, "", ""⟩).start = 840 := rfl
  have e8 : getMinutes (ROTATIONS_META.getD 3 ⟨0, "", ""⟩).stop = 930 := rfl
  have e9 : getMinutes (ROTATIONS_META.getD 4 ⟨0, "", ""⟩).start = 930 := rfl
  have e10 : getMinutes (ROTATIONS_META.getD 4 ⟨0, "", ""⟩).stop = 1020 := rfl
  rw [e1, e2] at h3
  rw [e3, e4, e5, e6, e7, e8, e9, e10]
  omega

/-- C8 counterexample: the 14:00-17:00 exception lies entirely outside
rotation 3's 12:00-14:00 window, yet B1 lands in rotation 1's OffShift
bucket rather than its normal pool. -/
theorem claim_C8_cex :
    "B1" ∈ (((generateGreenSchedule 1 [] [⟨"x", "B1", "14:00", "17:00"⟩] [] rs0).rotations).headD
      default).assignments.get .OFF_SHIFT := by
  decide

/-- C8 witness: the amended characterization at the concrete 14:00-17:00
exception. -/
theorem claim_C8_witness :
    (∀ m ∈ ROTATIONS_META, (isPresent [⟨"x", "B1", "14:00", "17:00"⟩] m "B1" = false ↔
      (getMinutes "17:00" ≤ getMinutes m.start ∨
       getMinutes "14:00" ≥ getMinutes m.stop))) ∧
    (isPresent [⟨"x", "B1", "14:00", "17:00"⟩] (ROTATIONS_META.getD 2 ⟨0, "", ""⟩) "B1" = false →
      ((isPresent [⟨"x", "B1", "14:00", "17:00"⟩] (ROTATIONS_META.getD 0 ⟨0, "", ""⟩) "B1" = false ∧
        isPresent [⟨"x", "B1", "14:00", "17:00"⟩] (ROTATIONS_META.getD 1 ⟨0, "", ""⟩) "B1" = false) ∨
       (isPresent [⟨"x", "B1", "14:00", "17:00"⟩] (ROTATIONS_META.getD 3 ⟨0, "", ""⟩) "B1" = false ∧
        isPresent [⟨"x", "B1", "14:00", "17:00"⟩] (ROTATIONS_META.getD 4 ⟨0, "", ""⟩) "B1" = false))) :=
  claim_C8 ⟨"x", "B1", "14:00", "17:00"⟩ rfl

/-- C9 (corrected): the scorer's penalty constants are strictly ordered
scarce-double (10000000) > consecutive-repeat (5000000) > escape-bonus
(1000000) > short-gap (200000) > variety (1000), and each dominates the
random tie-break term (strictly below 10).  The spec's ordering
(consecutive-repeat greatest and short-gap above escape) is wrong, see the
counterexample. -/
theorem claim_C9 :
    CONSECUTIVE_REPEAT_PENALTY < SCARCE_DOUBLE_PENALTY ∧
    ESCAPE_BONUS < CONSECUTIVE_REPEAT_PENALTY ∧
    SHORT_GAP_PENALTY < ESCAPE_BONUS ∧
    VARIETY_PENALTY < SHORT_GAP_PENALTY ∧
    ∀ r : ℚ, 0 ≤ r → r < 1 → r * RANDOM_SCALE < VARIETY_PENALTY := by
  refine ⟨by norm_num [CONSECUTIVE_REPEAT_PENALTY, SCARCE_DOUBLE_PENALTY],
    by norm_num [ESCAPE_BONUS, CONSECUTIVE_REPEAT_PENALTY],
    by norm_num [SHORT_GAP_PENALTY, ESCAPE_BONUS],
    by norm_num [VARIETY_PENALTY, SHORT_GAP_PENALTY],
    fun r h0 h1 => ?_⟩
  have hr : RANDOM_SCALE = (10 : ℚ) := rfl
  have hv : VARIETY_PENALTY = (1000 : ℚ) := rfl
  rw [hr, hv]
  nlinarith

/-- C9 counterexample: the spec's claimed ordering fails — the
consecutive-repeat penalty is NOT greater than the scarce-double penalty,
and the short-gap penalty is NOT greater than the escape-bonus magnitude. -/
theorem claim_C9_cex :
    ¬(CONSECUTIVE_REPEAT_PENALTY > SCARCE_DOUBLE_PENALTY) ∧
    ¬(SHORT_GAP_PENALTY > ESCAPE_BONUS) := by
  constructor <;>
    norm_num [SCARCE_DOUBLE_PENALTY, CONSECUTIVE_REPEAT_PENALTY, ESCAPE_BONUS,
      SHORT_GAP_PENALTY]

/-- C9 witness: the random-dominance bound at the concrete draw one half. -/
theorem claim_C9_witness :
    ((0 : ℚ) ≤ 1/2) ∧ ((1/2 : ℚ) < 1) ∧ (1/2 : ℚ) * RANDOM_SCALE < VARIETY_PENALTY :=
  ⟨by norm_num, by norm_num, claim_C9.2.2.2.2 (1/2) (by norm_num) (by norm_num)⟩

/-- C10 (confirmed): every run returns exactly five rotations with ids 1-5
and the hardcoded time windows, in order, independent of all arguments. -/
theorem claim_C10 (n : Nat) (sideTasks : List SideTaskRule)
    (shiftExceptions : List ShiftException) (fa : List ForcedAssignment)
    (rs : RandomStream) :
    ((generateGreenSchedule n sideTasks shiftExceptions fa rs).rotations).map
        (fun r => (r.id, r.timeRange))
      = [(1, "09:00 - 10:30"), (2, "10:30 - 12:00"), (3, "12:00 - 14:00"),
         (4, "14:00 - 15:30"), (5, "15:30 - 17:00")] := by
  unfold generateGreenSchedule generateGreenScheduleFull
  dsimp only
  rw [runRotations_idTime]
  rfl
